import Mathlib

/-!
Verification development for the PerpLens incremental funding-data
acquisition subsystem.  The definitions below are a shallow embedding of
the TypeScript sources:

* `src/src/services/funding-fetcher.ts`  (deduplicateRecords, getDaysCovered,
  fetchFundingIncremental, fetchExtendedTimeframe, fetchProbe12Months)
* `src/src/services/cache-manager.ts`    (deduplicateFundingRecords,
  getCachedRecords, storeRecords, getMissingDateRange)
* `src/src/services/cache-utils.ts`      (CachedFundingMonth, CachedDayIndex,
  shouldRefreshMonth, getMonthsInRange, isCurrentMonth, formatDateYYYYMMDD,
  getCachedFundingMonth, setCachedFundingMonth, getCachedDayIndex,
  setCachedDayIndex)
* `src/src/hooks/use-loading-state.ts`   (loadingReducer)
* `src/src/types/loading-types.ts`       (LoadingState, LoadingPhase,
  Timeframe, initialLoadingState, getTimeframeDays)

Conventions of the embedding:

* JavaScript `Date` values are represented by their epoch value in
  milliseconds (`Nat`), and the runtime is assumed to be in the UTC time
  zone, so `getFullYear`/`getMonth`/`getDate` are computed with the
  standard proleptic-Gregorian civil-from-days algorithm.
* `localStorage` is represented by the `Store` structure (association
  lists keyed the same way the code builds its string keys); writes are
  assumed to succeed (no quota exhaustion).
* Asynchronous network calls are represented by environments: the
  paginated endpoint by the list of successive responses the API yields
  during one run, the monthly endpoint by a function from year/month to a
  response.  A thrown JS exception is the `err` constructor.
* Callback invocations (`onMilestone`, `onRecords`, `onProgress`,
  `onComplete`, `onError`, `onCacheHit`) and network calls are recorded in
  an event trace, so properties about callbacks become properties of the
  trace.
* `Promise.all` batches are serialized in batch order; for the probe,
  a rejected month request aborts the batch at that point (one of the
  admissible settlement orders of the concurrent batch).
-/

namespace PerpLens


/-- One funding-payment event, mirroring `DriftFundingPaymentRecord` in
`src/src/services/drift-types.ts`. -/
structure DriftFundingPaymentRecord where
  ts : Nat
  txSig : String
  txSigIndex : Nat
  slot : Nat
  userAuthority : String
  user : String
  marketIndex : Nat
  fundingPayment : String
  baseAssetAmount : String
  userLastCumulativeFunding : String
  ammCumulativeFundingLong : String
  ammCumulativeFundingShort : String
  deriving Repr, DecidableEq

/-- The string identity key the code builds in `deduplicateRecords` and
`deduplicateFundingRecords`: the template literal
`$\x7br.txSig\x7d-$\x7br.txSigIndex\x7d`. -/
def recordKey (r : DriftFundingPaymentRecord) : String :=
  r.txSig ++ "-" ++ toString r.txSigIndex

/-- Recursive worker for `deduplicateRecords`: `seen` is the set of keys
already encountered (the JS `Set<string>`), membership being all that the
code observes. -/
def dedupeAux (seen : List String) :
    List DriftFundingPaymentRecord → List DriftFundingPaymentRecord
  | [] => []
  | r :: rs =>
    if recordKey r ∈ seen then dedupeAux seen rs
    else r :: dedupeAux (recordKey r :: seen) rs

/-- `deduplicateRecords` from `src/src/services/funding-fetcher.ts`
(lines 35-45): keep the first record for each `txSig-txSigIndex` key.
`deduplicateFundingRecords` in `src/src/services/cache-manager.ts`
(lines 22-32) is textually the same function. -/
def deduplicateRecords (records : List DriftFundingPaymentRecord) :
    List DriftFundingPaymentRecord :=
  dedupeAux [] records

/-- Keys of a record list, in order. -/
def keysOf (l : List DriftFundingPaymentRecord) : List String :=
  l.map recordKey

/-! ### JS `Date` model (UTC)

A JS `Date` is represented by its epoch milliseconds.  `civilFromDays` and
`daysFromCivil` are the standard proleptic-Gregorian conversions used to
model `getFullYear`/`getMonth`/`getDate` and `Date` construction from a
`YYYY-MM-DD` string; they are valid for the post-1970 timestamps the
application handles. -/

/-- Gregorian (year, month 1-12, day 1-31) of a day count since 1970-01-01. -/
def civilFromDays (z : Nat) : Nat × Nat × Nat :=
  let z' := z + 719468
  let era := z' / 146097
  let doe := z' % 146097
  let yoe := (doe - doe / 1460 + doe / 36524 - doe / 146096) / 365
  let y := yoe + era * 400
  let doy := doe - (365 * yoe + yoe / 4 - yoe / 100)
  let mp := (5 * doy + 2) / 153
  let d := doy - (153 * mp + 2) / 5 + 1
  let m := if mp < 10 then mp + 3 else mp - 9
  (if m ≤ 2 then y + 1 else y, m, d)

/-- Day count since 1970-01-01 of a Gregorian date (valid for years from 1970 on). -/
def daysFromCivil (y m d : Nat) : Nat :=
  let y' := if m ≤ 2 then y - 1 else y
  let era := y' / 400
  let yoe := y' % 400
  let mp := if 2 < m then m - 3 else m + 9
  let doy := (153 * mp + 2) / 5 + d - 1
  let doe := yoe * 365 + yoe / 4 - yoe / 100 + doy
  era * 146097 + doe - 719468

/-- `date.getFullYear()` (UTC model). -/
def msYear (ms : Nat) : Nat := (civilFromDays (ms / 86400000)).1

/-- `date.getMonth() + 1` (UTC model, 1-indexed as the code uses it). -/
def msMonth (ms : Nat) : Nat := (civilFromDays (ms / 86400000)).2.1

/-- `date.getDate()` (UTC model). -/
def msDay (ms : Nat) : Nat := (civilFromDays (ms / 86400000)).2.2

/-- Zero-padding used by `padStart(2, "0")`. -/
def pad2 (n : Nat) : String :=
  if n < 10 then "0" ++ toString n else toString n

/-- `formatDateYYYYMMDD` from `src/src/services/cache-utils.ts` (lines
334-339), applied to a date given in epoch milliseconds. -/
def formatDateYYYYMMDD (ms : Nat) : String :=
  toString (msYear ms) ++ "-" ++ pad2 (msMonth ms) ++ "-" ++ pad2 (msDay ms)

/-- `new Date("YYYY-MM-DD")`: parse back to epoch milliseconds (UTC
midnight).  Unparsable parts default to 0, only well-formed strings occur
in the runs analysed here. -/
def parseDateYYYYMMDD (s : String) : Nat :=
  match s.splitOn "-" with
  | [ys, ms, ds] =>
    86400000 * daysFromCivil (ys.toNat?.getD 0) (ms.toNat?.getD 0) (ds.toNat?.getD 0)
  | _ => 0

/-- JS `<` on strings: lexicographic comparison of code units. -/
def jsCharsLt : List Char → List Char → Bool
  | [], [] => false
  | [], _ :: _ => true
  | _ :: _, [] => false
  | c :: cs, d :: ds =>
    if c.toNat < d.toNat then true
    else if d.toNat < c.toNat then false
    else jsCharsLt cs ds

/-- JS string comparison `a < b`, used by the code on `YYYY-MM-DD`
date strings. -/
def jsStrLt (a b : String) : Bool := jsCharsLt a.data b.data

/-- `isCurrentMonth` from `src/src/services/cache-utils.ts` (lines 36-39). -/
def isCurrentMonth (year month nowMs : Nat) : Bool :=
  msYear nowMs == year && msMonth nowMs == month

/-- `getMonthsInRange` from `src/src/services/cache-utils.ts` (lines
45-64): every (year, month) from the month of `startMs` to the month of
`endMs`, inclusive.  The source loops a `Date` cursor from the first of
the start month while it is `<=` the first of the end month; that is the
enumeration of month indexes below. -/
def getMonthsInRange (startMs endMs : Nat) : List (Nat × Nat) :=
  let a := msYear startMs * 12 + (msMonth startMs - 1)
  let b := msYear endMs * 12 + (msMonth endMs - 1)
  if a ≤ b then
    (List.range (b - a + 1)).map (fun i => ((a + i) / 12, (a + i) % 12 + 1))
  else []

/-! ### Record store model (`localStorage`) -/

/-- `CachedFundingMonth` from `src/src/services/cache-utils.ts`. -/
structure CachedFundingMonth where
  records : List DriftFundingPaymentRecord
  fetchedAt : Nat
  isComplete : Bool
  deriving Repr, DecidableEq

/-- `CachedDayIndex` from `src/src/services/cache-utils.ts`. -/
structure CachedDayIndex where
  lastFetchedDate : String
  oldestCachedDate : String
  fetchedAt : Nat
  deriving Repr, DecidableEq

/-- The portion of `localStorage` the funding subsystem reads and writes:
monthly funding buckets keyed by `(wallet.slice(0,8), year, month)` and
the per-wallet day index keyed by `wallet.slice(0,8)`. -/
structure Store where
  fundingMonths : List ((String × Nat × Nat) × CachedFundingMonth)
  dayIndexes : List (String × CachedDayIndex)
  deriving Repr, DecidableEq

/-- The truncated wallet used in every cache key (`wallet.slice(0, 8)`). -/
def walletKey (wallet : String) : String := wallet.take 8

/-- Association-list read (the unique binding for a key, if any). -/
def assocGet {α β : Type} [DecidableEq α] (k : α) (l : List (α × β)) : Option β :=
  (l.find? (fun p => p.1 = k)).map Prod.snd

/-- Association-list write (`localStorage.setItem`): replace or add. -/
def assocSet {α β : Type} [DecidableEq α] (k : α) (v : β) :
    List (α × β) → List (α × β)
  | [] => [(k, v)]
  | p :: ps => if p.1 = k then (k, v) :: ps else p :: assocSet k v ps

/-- `getCachedFundingMonth` from `src/src/services/cache-utils.ts`
(lines 88-102). -/
def getCachedFundingMonth (wallet : String) (year month : Nat) (st : Store) :
    Option CachedFundingMonth :=
  assocGet (walletKey wallet, year, month) st.fundingMonths

/-- `setCachedFundingMonth` from `src/src/services/cache-utils.ts`
(lines 107-124); the write is assumed to fit in the storage quota. -/
def setCachedFundingMonth (wallet : String) (year month : Nat)
    (records : List DriftFundingPaymentRecord) (nowMs : Nat) (st : Store) :
    Store :=
  { st with
    fundingMonths :=
      assocSet (walletKey wallet, year, month)
        { records := records
          fetchedAt := nowMs
          isComplete := !isCurrentMonth year month nowMs }
        st.fundingMonths }

/-- `getCachedDayIndex` from `src/src/services/cache-utils.ts`
(lines 229-239). -/
def getCachedDayIndex (wallet : String) (st : Store) : Option CachedDayIndex :=
  assocGet (walletKey wallet) st.dayIndexes

/-- `setCachedDayIndex` from `src/src/services/cache-utils.ts`
(lines 244-251). -/
def setCachedDayIndex (wallet : String) (idx : CachedDayIndex) (st : Store) :
    Store :=
  { st with dayIndexes := assocSet (walletKey wallet) idx st.dayIndexes }

/-- `shouldRefreshMonth` from `src/src/services/cache-utils.ts` (lines
76-83): an absent bucket always needs a fetch, a historical month never
does, the current month does once the last fetch is more than
5 minutes old. -/
def shouldRefreshMonth (cached : Option CachedFundingMonth)
    (isCurrent : Bool) (nowMs : Nat) : Bool :=
  match cached with
  | none => true
  | some c =>
    if !isCurrent then false
    else nowMs - c.fetchedAt > 5 * 60 * 1000

/-! ### Cache manager (`src/src/services/cache-manager.ts`) -/

/-- The comparator `(a, b) => b.ts - a.ts`: newest first. -/
def tsGe (a b : DriftFundingPaymentRecord) : Prop := b.ts ≤ a.ts

instance : DecidableRel tsGe := fun a b => Nat.decLe b.ts a.ts

instance : IsTotal DriftFundingPaymentRecord tsGe :=
  ⟨fun a b => (Nat.le_total b.ts a.ts).imp id id⟩

instance : IsTrans DriftFundingPaymentRecord tsGe :=
  ⟨fun _ _ _ h h' => Nat.le_trans h' h⟩

/-- `records.sort((a, b) => b.ts - a.ts)`: a stable sort by descending
timestamp. -/
def sortTsDesc (l : List DriftFundingPaymentRecord) :
    List DriftFundingPaymentRecord :=
  l.insertionSort tsGe

/-- `getDaysCovered` from `src/src/services/funding-fetcher.ts` (lines
50-55): ceiling of the age in days of the oldest record, 0 for an empty
list (`now` in epoch seconds). -/
def getDaysCovered (records : List DriftFundingPaymentRecord)
    (nowSec : Nat) : Nat :=
  match records with
  | [] => 0
  | r :: rs =>
    let oldest := rs.foldl (fun acc x => min acc x.ts) r.ts
    (nowSec - oldest + (24 * 60 * 60 - 1)) / (24 * 60 * 60)

/-- `getCachedRecords` from `src/src/services/cache-manager.ts` (lines
66-93): concatenate the cached buckets of every month in the window,
filter to the window, deduplicate, sort newest first. -/
def getCachedRecords (wallet : String) (days : Nat) (nowMs : Nat)
    (st : Store) : List DriftFundingPaymentRecord :=
  let startMs := nowMs - days * 86400000
  let months := getMonthsInRange startMs nowMs
  let allRecords := months.foldl
    (fun acc ym =>
      match getCachedFundingMonth wallet ym.1 ym.2 st with
      | some c => acc ++ c.records
      | none => acc)
    []
  let cutoffTs := nowMs / 1000 - days * 24 * 60 * 60
  let filtered := allRecords.filter (fun r => cutoffTs ≤ r.ts)
  sortTsDesc (deduplicateRecords filtered)

/-- Grouping loop of `storeRecords`: a JS `Map` keyed by
`year-month` preserving first-insertion order. -/
def groupByMonth (records : List DriftFundingPaymentRecord) :
    List ((Nat × Nat) × List DriftFundingPaymentRecord) :=
  records.foldl
    (fun acc r =>
      let key := (msYear (r.ts * 1000), msMonth (r.ts * 1000))
      match assocGet key acc with
      | some rs => assocSet key (rs ++ [r]) acc
      | none => acc ++ [(key, [r])])
    []

/-- Body of the month-merge loop of `storeRecords` (lines 118-130):
merge one month group into its bucket through the deduplicator. -/
def storeMonthGroup (wallet : String) (nowMs : Nat) (acc : Store)
    (g : (Nat × Nat) × List DriftFundingPaymentRecord) : Store :=
  let existingRecords :=
    match getCachedFundingMonth wallet g.1.1 g.1.2 acc with
    | some c => c.records
    | none => []
  setCachedFundingMonth wallet g.1.1 g.1.2
    (deduplicateRecords (existingRecords ++ g.2)) nowMs acc

/-- `storeRecords` from `src/src/services/cache-manager.ts` (lines
99-149): merge each month group into its bucket through the
deduplicator, then overwrite the day index with the batch's newest date
as `lastFetchedDate` and the minimum of the batch's oldest date and the
existing `oldestCachedDate` as `oldestCachedDate`. -/
def storeRecords (wallet : String)
    (records : List DriftFundingPaymentRecord) (nowMs : Nat) (st : Store) :
    Store :=
  if records = [] then st
  else
    let groups := groupByMonth records
    let st1 := groups.foldl (storeMonthGroup wallet nowMs) st
    let allSorted := sortTsDesc records
    match allSorted, allSorted.getLast? with
    | newest :: _, some oldest =>
      let newestStr := formatDateYYYYMMDD (newest.ts * 1000)
      let oldestStr := formatDateYYYYMMDD (oldest.ts * 1000)
      let oldestCached :=
        match getCachedDayIndex wallet st1 with
        | some existingIndex =>
          if jsStrLt existingIndex.oldestCachedDate oldestStr then
            existingIndex.oldestCachedDate
          else oldestStr
        | none => oldestStr
      setCachedDayIndex wallet
        { lastFetchedDate := newestStr
          oldestCachedDate := oldestCached
          fetchedAt := nowMs }
        st1
    | _, _ => st1

/-- The four gap-resolver verdicts of `getMissingDateRange`. -/
inductive NeedsFetch where
  | recent | historical | both | nothing
  deriving Repr, DecidableEq

/-- `FetchRange` from `src/src/services/cache-manager.ts` (dates in epoch
milliseconds). -/
structure FetchRange where
  startDate : Nat
  endDate : Nat
  needsFetch : NeedsFetch
  deriving Repr, DecidableEq

/-- `getMissingDateRange` from `src/src/services/cache-manager.ts`
(lines 174-242); `needsFetch = nothing` is the source's `"none"`.
Date strings in `YYYY-MM-DD` form are compared with JS string
comparison, modelled by the lexicographic `String` order. -/
def getMissingDateRange (wallet : String) (requestedDays : Nat)
    (nowMs : Nat) (st : Store) : FetchRange :=
  let today := formatDateYYYYMMDD nowMs
  let requestedStartMs := nowMs - requestedDays * 86400000
  let requestedStart := formatDateYYYYMMDD requestedStartMs
  match getCachedDayIndex wallet st with
  | none =>
    { startDate := requestedStartMs, endDate := nowMs,
      needsFetch := NeedsFetch.both }
  | some index =>
    let isStale : Bool := decide (5 * 60 * 1000 < nowMs - index.fetchedAt)
    let hasToday : Bool := index.lastFetchedDate == today
    let hasHistorical : Bool := !jsStrLt requestedStart index.oldestCachedDate
    if hasToday && !isStale && hasHistorical then
      { startDate := requestedStartMs, endDate := nowMs,
        needsFetch := NeedsFetch.nothing }
    else if !hasToday || isStale then
      if !hasHistorical then
        { startDate := requestedStartMs, endDate := nowMs,
          needsFetch := NeedsFetch.both }
      else
        { startDate := parseDateYYYYMMDD index.lastFetchedDate,
          endDate := nowMs, needsFetch := NeedsFetch.recent }
    else
      { startDate := requestedStartMs,
        endDate := parseDateYYYYMMDD index.oldestCachedDate,
        needsFetch := NeedsFetch.historical }

/-! ### Loading state machine (`src/src/hooks/use-loading-state.ts`,
`src/src/types/loading-types.ts`) -/

/-- `Timeframe` from `src/src/types/loading-types.ts` (`"24H"`, `"7D"`,
`"30D"`, `"3M"`, `"6M"`, `"1Y"`). -/
inductive Timeframe where
  | h24 | d7 | d30 | m3 | m6 | y1
  deriving Repr, DecidableEq

/-- `getTimeframeDays` from `src/src/types/loading-types.ts`. -/
def getTimeframeDays : Timeframe → Nat
  | Timeframe.h24 => 1
  | Timeframe.d7 => 7
  | Timeframe.d30 => 30
  | Timeframe.m3 => 90
  | Timeframe.m6 => 180
  | Timeframe.y1 => 365

/-- `LoadingPhase` from `src/src/types/loading-types.ts`; `d7_loaded`
is the source's `"7d_loaded"` and `d30_loaded` its `"30d_loaded"`. -/
inductive LoadingPhase where
  | idle | loading_7d | d7_loaded | loading_30d | d30_loaded
  | loading_extended | complete
  deriving Repr, DecidableEq

/-- `LoadingState` from `src/src/types/loading-types.ts`; the `error`
field holds the JS `Error` message. -/
structure LoadingState where
  phase : LoadingPhase
  daysLoaded : Nat
  currentlyFetching : Option Timeframe
  extendedQueue : List Timeframe
  hasCacheHit : Bool
  has14DayMilestone : Bool
  error : Option String
  deriving Repr, DecidableEq

/-- `initialLoadingState` from `src/src/types/loading-types.ts`. -/
def initialLoadingState : LoadingState :=
  { phase := LoadingPhase.idle
    daysLoaded := 0
    currentlyFetching := none
    extendedQueue := [Timeframe.m3, Timeframe.m6, Timeframe.y1]
    hasCacheHit := false
    has14DayMilestone := false
    error := none }

/-- `LoadingAction` from `src/src/hooks/use-loading-state.ts`;
`d7_loaded`/`d30_loaded` are the source's `7D_LOADED`/`30D_LOADED`. -/
inductive LoadingAction where
  | reset
  | start_fresh
  | start_from_cache (daysLoaded : Nat)
      (cachedExtendedTimeframes : Option (List Timeframe))
  | d7_loaded (daysLoaded : Nat)
  | d14_milestone
  | d30_loaded
  | extended_loaded (timeframe : Timeframe)
  | complete
  | set_fetching (timeframe : Option Timeframe)
  | set_error (error : String)
  | update_days_loaded (daysLoaded : Nat)
  deriving Repr, DecidableEq

/-- `loadingReducer` from `src/src/hooks/use-loading-state.ts`
(lines 33-160). -/
def loadingReducer (state : LoadingState) (action : LoadingAction) :
    LoadingState :=
  match action with
  | LoadingAction.reset => initialLoadingState
  | LoadingAction.start_fresh =>
    { initialLoadingState with
      phase := LoadingPhase.loading_7d
      currentlyFetching := some Timeframe.d7 }
  | LoadingAction.start_from_cache daysLoaded cachedExtendedTimeframes =>
    let phase :=
      if daysLoaded ≥ 30 then LoadingPhase.d30_loaded
      else if daysLoaded ≥ 7 then LoadingPhase.d7_loaded
      else LoadingPhase.loading_7d
    let cachedExtended := cachedExtendedTimeframes.getD []
    let baseQueue := [Timeframe.m3, Timeframe.m6, Timeframe.y1]
    let filteredQueue := baseQueue.filter (fun tf => tf ∉ cachedExtended)
    let currentlyFetching : Option Timeframe :=
      if phase = LoadingPhase.loading_7d then some Timeframe.d7
      else if phase = LoadingPhase.d7_loaded then some Timeframe.d30
      else if phase = LoadingPhase.d30_loaded then filteredQueue.head?
      else none
    let finalPhase :=
      if phase = LoadingPhase.d30_loaded ∧ filteredQueue.length = 0 then
        LoadingPhase.complete
      else phase
    { state with
      phase := finalPhase
      daysLoaded := daysLoaded
      hasCacheHit := true
      has14DayMilestone := daysLoaded ≥ 14
      currentlyFetching := currentlyFetching
      extendedQueue :=
        if phase = LoadingPhase.d30_loaded then filteredQueue else [] }
  | LoadingAction.d7_loaded daysLoaded =>
    { state with
      phase := LoadingPhase.d7_loaded
      daysLoaded := max state.daysLoaded daysLoaded
      currentlyFetching := some Timeframe.d30 }
  | LoadingAction.d14_milestone =>
    { state with has14DayMilestone := true }
  | LoadingAction.d30_loaded =>
    if state.phase = LoadingPhase.d30_loaded ∨
        state.phase = LoadingPhase.loading_extended ∨
        state.phase = LoadingPhase.complete then
      state
    else
      { state with
        phase := LoadingPhase.d30_loaded
        daysLoaded := max state.daysLoaded 30
        currentlyFetching := some Timeframe.m3
        extendedQueue := [Timeframe.m3, Timeframe.m6, Timeframe.y1] }
  | LoadingAction.extended_loaded timeframe =>
    let newQueue := state.extendedQueue.filter (fun tf => tf ≠ timeframe)
    { state with
      phase :=
        if newQueue.length > 0 then LoadingPhase.loading_extended
        else LoadingPhase.complete
      currentlyFetching := newQueue.head?
      extendedQueue := newQueue }
  | LoadingAction.complete =>
    { state with
      phase := LoadingPhase.complete
      currentlyFetching := none
      extendedQueue := [] }
  | LoadingAction.set_fetching timeframe =>
    { state with currentlyFetching := timeframe }
  | LoadingAction.set_error e =>
    { state with error := some e, currentlyFetching := none }
  | LoadingAction.update_days_loaded daysLoaded =>
    { state with
      daysLoaded := daysLoaded
      has14DayMilestone := state.has14DayMilestone || daysLoaded ≥ 14 }

/-- Position of a phase along the progression
`idle < loading_7d < 7d_loaded < loading_30d < 30d_loaded <
loading_extended < complete`. -/
def phaseRank : LoadingPhase → Nat
  | LoadingPhase.idle => 0
  | LoadingPhase.loading_7d => 1
  | LoadingPhase.d7_loaded => 2
  | LoadingPhase.loading_30d => 3
  | LoadingPhase.d30_loaded => 4
  | LoadingPhase.loading_extended => 5
  | LoadingPhase.complete => 6

/-- The loading states reachable from `initialLoadingState` by
dispatching actions. -/
inductive Reachable : LoadingState → Prop where
  | init : Reachable initialLoadingState
  | step (s : LoadingState) (a : LoadingAction) :
      Reachable s → Reachable (loadingReducer s a)

/-- Actions that are not session (re)starts and not the unguarded
`7D_LOADED` milestone. -/
def isMonotoneSafe : LoadingAction → Bool
  | LoadingAction.reset => false
  | LoadingAction.start_fresh => false
  | LoadingAction.start_from_cache _ _ => false
  | LoadingAction.d7_loaded _ => false
  | _ => true

/-! ### Incremental fetcher (`src/src/services/funding-fetcher.ts`)

The fetchers' observable behaviour is recorded in an event trace:
network requests and every callback invocation, in program order. -/

/-- Observable events of one fetch run. -/
inductive Ev where
  | netCall
  | netCallMonth (year month : Nat)
  | milestone (kind : String)
  | recordsEv (records : List DriftFundingPaymentRecord) (totalDaysLoaded : Nat)
  | progressEv (loadedMonths totalMonths : Nat) (phase : String)
  | probeProgress (loaded total : Nat)
  | completeEv (records : List DriftFundingPaymentRecord)
  | cacheHit
  | errorEv (e : String)
  deriving Repr, DecidableEq

/-- `DriftFundingPaymentsResponse`: `success`, optional `records`,
optional `meta.nextPage`. -/
structure PageResp where
  success : Bool
  records : Option (List DriftFundingPaymentRecord)
  nextPage : Option String
  deriving Repr, DecidableEq

/-- Outcome of one call to the remote API: a parsed response, or a
thrown exception carrying its message. -/
inductive ApiResult where
  | ok (resp : PageResp)
  | err (e : String)
  deriving Repr, DecidableEq

/-- Result of a whole fetch run: the event trace, the records resolved
to the caller, and the final `localStorage`. -/
structure FetchOutcome where
  trace : List Ev
  records : List DriftFundingPaymentRecord
  store : Store
  deriving Repr, DecidableEq

/-- Mutable state of the pagination loop of `fetchFundingIncremental`. -/
structure IncLoopState where
  allRecords : List DriftFundingPaymentRecord
  fetched : List DriftFundingPaymentRecord
  t7 : Bool
  t14 : Bool
  trace : List Ev
  deriving Repr, DecidableEq

/-- Body executed when a page arrives with `success && records`
(lines 118-139 of `funding-fetcher.ts`): accumulate, merge-deduplicate,
and fire the 7-day and 14-day milestones. -/
def incStep (nowSec : Nat) (rs : List DriftFundingPaymentRecord)
    (st : IncLoopState) : IncLoopState :=
  let fetched := st.fetched ++ rs
  let merged := deduplicateRecords (st.allRecords ++ rs)
  let daysCovered := getDaysCovered merged nowSec
  let (t7, tr7) :=
    if !st.t7 && decide (7 ≤ daysCovered) then
      (true, [Ev.milestone "7d", Ev.recordsEv merged daysCovered])
    else (st.t7, [])
  let (t14, tr14) :=
    if !st.t14 && decide (14 ≤ daysCovered) then
      (true, [Ev.milestone "14d"])
    else (st.t14, [])
  { allRecords := merged
    fetched := fetched
    t7 := t7
    t14 := t14
    trace := st.trace ++ tr7 ++ tr14 }

/-- The `do/while (nextPage)` pagination loop of
`fetchFundingIncremental` (lines 111-148).  `pages` is the sequence of
results the API produces for the successive page requests of this run;
running past it is a network failure.  Returns the loop state and
`some e` when the iteration threw `e`. -/
def runPages (aborted : Bool) (nowSec cutoff : Nat) :
    List ApiResult → IncLoopState → IncLoopState × Option String
  | pages, st =>
    if aborted then (st, some "Fetch aborted") else
    match pages with
    | [] => (st, some "network request failed")
    | pr :: rest =>
      let st1 := { st with trace := st.trace ++ [Ev.netCall] }
      match pr with
      | ApiResult.err e => (st1, some e)
      | ApiResult.ok resp =>
        match resp.success, resp.records with
        | true, some rs =>
          let st2 := incStep nowSec rs st1
          let brk :=
            match rs.getLast? with
            | some oldest => decide (oldest.ts < cutoff)
            | none => false
          if brk then (st2, none)
          else
            match resp.nextPage with
            | none => (st2, none)
            | some _ => runPages aborted nowSec cutoff rest st2
        | _, _ =>
          match resp.nextPage with
          | none => (st1, none)
          | some _ => runPages aborted nowSec cutoff rest st1

/-- Post-loop part of `fetchFundingIncremental` (lines 150-181): store
the fetched pages, deduplicate and sort, fire the remaining milestones,
`onRecords` and `onComplete` — or, when the loop threw, the `catch`
block (lines 178-181): `onError` once and resolve with `[]`. -/
def incAfterLoop (wallet : String) (nowMs : Nat) (store : Store) (t30 : Bool)
    (res : IncLoopState × Option String) : FetchOutcome :=
  match res with
  | (st, some e) =>
    { trace := st.trace ++ [Ev.errorEv e], records := [], store := store }
  | (st, none) =>
    let store' :=
      if st.fetched.length > 0 then storeRecords wallet st.fetched nowMs store
      else store
    let finalRecords := sortTsDesc (deduplicateRecords st.allRecords)
    let finalDays := getDaysCovered finalRecords (nowMs / 1000)
    let t1 : List Ev :=
      if !t30 && decide (finalRecords.length > 0) then [Ev.milestone "30d"]
      else []
    let t2 : List Ev :=
      if !st.t7 then
        [Ev.milestone "7d", Ev.recordsEv finalRecords finalDays]
      else []
    { trace := st.trace ++ t1 ++ t2
        ++ [Ev.recordsEv finalRecords finalDays, Ev.completeEv finalRecords]
      records := finalRecords
      store := store' }

/-- The pre-loop callbacks of `fetchFundingIncremental` (lines 91-97):
on a significant cache, `onCacheHit`, the 7d (and possibly 14d)
milestone and a first `onRecords`. -/
def incPreTrace (cachedRecords : List DriftFundingPaymentRecord)
    (cachedDays : Nat) : List Ev :=
  if 7 ≤ cachedDays then
    [Ev.cacheHit, Ev.milestone "7d"]
    ++ (if 14 ≤ cachedDays then [Ev.milestone "14d"] else [])
    ++ [Ev.recordsEv cachedRecords cachedDays]
  else []

/-- `fetchFundingIncremental` from `src/src/services/funding-fetcher.ts`
(lines 61-182).  `pages` is the environment for the paginated endpoint
and `aborted` the state of the `AbortSignal`; the wall clock `nowMs` is
epoch milliseconds. -/
def fetchFundingIncremental (wallet : String) (pages : List ApiResult)
    (aborted : Bool) (nowMs : Nat) (store : Store) : FetchOutcome :=
  let nowSec := nowMs / 1000
  let mr := getMissingDateRange wallet 30 nowMs store
  let cachedRecords := getCachedRecords wallet 30 nowMs store
  let cachedDays := getDaysCovered cachedRecords nowSec
  if mr.needsFetch = NeedsFetch.nothing then
    let t : List Ev :=
      [Ev.cacheHit]
      ++ (if 7 ≤ cachedDays then [Ev.milestone "7d"] else [])
      ++ (if 14 ≤ cachedDays then [Ev.milestone "14d"] else [])
      ++ [Ev.milestone "30d", Ev.recordsEv cachedRecords cachedDays,
          Ev.completeEv cachedRecords]
    { trace := t, records := cachedRecords, store := store }
  else
    let cutoff := nowSec - 30 * 24 * 60 * 60
    let st0 : IncLoopState :=
      { allRecords := cachedRecords
        fetched := []
        t7 := decide (7 ≤ cachedDays)
        t14 := decide (14 ≤ cachedDays)
        trace := incPreTrace cachedRecords cachedDays }
    incAfterLoop wallet nowMs store (decide (30 ≤ cachedDays))
      (runPages aborted nowSec cutoff pages st0)

/-! ### Extended monthly fetch -/

/-- Per-month body of the extended fetch's `Promise.all` batch
(lines 250-262): a thrown request is caught and contributes no records
and no cache write; a successful response with records is cached and
contributed. -/
def extFetchMonth (wallet : String) (monthApi : Nat → Nat → ApiResult)
    (nowMs : Nat) (ym : Nat × Nat) (st : Store) :
    List DriftFundingPaymentRecord × Store :=
  match monthApi ym.1 ym.2 with
  | ApiResult.err _ => ([], st)
  | ApiResult.ok resp =>
    match resp.success, resp.records with
    | true, some rs => (rs, setCachedFundingMonth wallet ym.1 ym.2 rs nowMs st)
    | _, _ => ([], st)

/-- The slices `for (let i = 0; i < list.length; i += BATCH_SIZE)` with
`BATCH_SIZE = 3` iterates over: the list cut into chunks of three. -/
def chunks3 {α : Type} : List α → List (List α)
  | [] => []
  | [a] => [[a]]
  | [a, b] => [[a, b]]
  | a :: b :: c :: rest => [a, b, c] :: chunks3 rest

/-- The batched fetch loop of `fetchExtendedTimeframe` (lines 244-279),
iterating over the `BATCH_SIZE = 3` slices; the `Promise.all` of a batch
is serialized in batch order.  Returns the trace, accumulated records,
store, and `some e` when the loop threw. -/
def extLoop (wallet : String) (monthApi : Nat → Nat → ApiResult)
    (aborted : Bool) (nowMs totalMonths : Nat) :
    List (List (Nat × Nat)) → Nat → List DriftFundingPaymentRecord → Store →
    List Ev → List Ev × List DriftFundingPaymentRecord × Store × Option String
  | [], _, all, st, tr => (tr, all, st, none)
  | batch :: rest, fetchedCount, all, st, tr =>
    if aborted then (tr, all, st, some "Fetch aborted")
    else
      let (results, st1) := batch.foldl
        (fun (acc : List (List DriftFundingPaymentRecord) × Store) ym =>
          let (rs, st') := extFetchMonth wallet monthApi nowMs ym acc.2
          (acc.1 ++ [rs], st'))
        ([], st)
      let tr1 := tr ++ batch.map (fun ym => Ev.netCallMonth ym.1 ym.2)
      let all1 := all ++ results.foldl (fun a rs => a ++ rs) []
      let fetchedCount1 := fetchedCount + batch.length
      let phase := if fetchedCount1 = totalMonths then "complete" else "fetch"
      let tr2 := tr1
        ++ [Ev.progressEv fetchedCount1 totalMonths phase,
            Ev.recordsEv all1 (getDaysCovered all1 (nowMs / 1000))]
      extLoop wallet monthApi aborted nowMs totalMonths rest fetchedCount1
        all1 st1 tr2

/-- Post-loop part of `fetchExtendedTimeframe` (lines 282-295): filter
to the window, deduplicate, sort, final progress and `onComplete` — or
the `catch` block: `onError` once and resolve with `[]` (cache writes
made before the throw persist). -/
def extAfterLoop (days nowMs totalMonths : Nat)
    (res : List Ev × List DriftFundingPaymentRecord × Store × Option String) :
    FetchOutcome :=
  match res with
  | (tr, _, st, some e) =>
    { trace := tr ++ [Ev.errorEv e], records := [], store := st }
  | (tr, all, st, none) =>
    let cutoffTs := nowMs / 1000 - days * 24 * 60 * 60
    let filteredRecords := all.filter (fun r => cutoffTs ≤ r.ts)
    let deduplicated := sortTsDesc (deduplicateRecords filteredRecords)
    { trace := tr
        ++ [Ev.progressEv totalMonths totalMonths "complete",
            Ev.completeEv deduplicated]
      records := deduplicated
      store := st }

/-- `fetchExtendedTimeframe` from `src/src/services/funding-fetcher.ts`
(lines 188-296). -/
def fetchExtendedTimeframe (wallet : String) (timeframe : Timeframe)
    (monthApi : Nat → Nat → ApiResult) (aborted : Bool) (nowMs : Nat)
    (store : Store) : FetchOutcome :=
  let nowSec := nowMs / 1000
  let days := getTimeframeDays timeframe
  let startMs := nowMs - days * 86400000
  let months := getMonthsInRange startMs nowMs
  let monthsReversed := months.reverse
  let totalMonths := monthsReversed.length
  let t0 : List Ev := [Ev.progressEv 0 totalMonths "cache"]
  -- the cache-check loop throws at its first iteration when aborted
  if aborted ∧ monthsReversed ≠ [] then
    { trace := t0 ++ [Ev.errorEv "Fetch aborted"], records := [],
      store := store }
  else
    let scan := monthsReversed.foldl
      (fun (acc : List DriftFundingPaymentRecord × List (Nat × Nat)) ym =>
        let cached := getCachedFundingMonth wallet ym.1 ym.2 store
        let isCur := isCurrentMonth ym.1 ym.2 nowMs
        match cached with
        | some c =>
          if !shouldRefreshMonth (some c) isCur nowMs then
            (acc.1 ++ c.records, acc.2)
          else (acc.1, acc.2 ++ [ym])
        | none => (acc.1, acc.2 ++ [ym]))
      ([], [])
    let cachedRecords := scan.1
    let monthsNeedingFetch := scan.2
    let t1 : List Ev :=
      if cachedRecords.length > 0 then
        [Ev.recordsEv cachedRecords (getDaysCovered cachedRecords nowSec)]
      else []
    let allRecords0 := if cachedRecords.length > 0 then cachedRecords else []
    let afterFetch :=
      if monthsNeedingFetch.length > 0 then
        let fetchedCount0 := totalMonths - monthsNeedingFetch.length
        let tPre := [Ev.progressEv fetchedCount0 totalMonths "fetch"]
        extLoop wallet monthApi aborted nowMs totalMonths
          (chunks3 monthsNeedingFetch) fetchedCount0 allRecords0 store
          (t0 ++ t1 ++ tPre)
      else (t0 ++ t1, allRecords0, store, none)
    extAfterLoop days nowMs totalMonths afterFetch

/-! ### Twelve-month probe -/

/-- Per-month body of the probe's `Promise.all` batch (lines 332-347):
success with records caches them (an empty list is cached explicitly as
confirmed-empty); a response with `success` false or absent records is
not cached; a thrown request is re-thrown. -/
def probeFetchMonth (wallet : String) (monthApi : Nat → Nat → ApiResult)
    (nowMs : Nat) (ym : Nat × Nat) (st : Store) :
    Except String (List DriftFundingPaymentRecord × Store) :=
  match monthApi ym.1 ym.2 with
  | ApiResult.err e => Except.error e
  | ApiResult.ok resp =>
    match resp.success, resp.records with
    | true, some rs =>
      if rs.length > 0 then
        Except.ok (rs, setCachedFundingMonth wallet ym.1 ym.2 rs nowMs st)
      else
        Except.ok ([], setCachedFundingMonth wallet ym.1 ym.2 [] nowMs st)
    | _, _ => Except.ok ([], st)

/-- Sequential processing of one probe batch; every request of the batch
is initiated (traced) before results settle, and a rejection stops the
merge at that point. -/
def probeBatch (wallet : String) (monthApi : Nat → Nat → ApiResult)
    (nowMs : Nat) :
    List (Nat × Nat) → Store →
    List DriftFundingPaymentRecord × Store × Option String
  | [], st => ([], st, none)
  | ym :: yms, st =>
    match probeFetchMonth wallet monthApi nowMs ym st with
    | Except.error e => ([], st, some e)
    | Except.ok (rs, st') =>
      let (rs', st'', e?) := probeBatch wallet monthApi nowMs yms st'
      (rs ++ rs', st'', e?)

/-- The batched loop of `fetchProbe12Months` (lines 326-355), iterating
over the `BATCH_SIZE = 3` slices. -/
def probeLoop (wallet : String) (monthApi : Nat → Nat → ApiResult)
    (aborted : Bool) (nowMs totalMonths : Nat) :
    List (List (Nat × Nat)) → Nat → List DriftFundingPaymentRecord → Store →
    List Ev → List Ev × List DriftFundingPaymentRecord × Store × Option String
  | [], _, all, st, tr => (tr, all, st, none)
  | batch :: rest, i, all, st, tr =>
    if aborted then (tr, all, st, some "Fetch aborted")
    else
      let tr1 := tr ++ batch.map (fun ym => Ev.netCallMonth ym.1 ym.2)
      match probeBatch wallet monthApi nowMs batch st with
      | (_, st1, some e) => (tr1, all, st1, some e)
      | (rs, st1, none) =>
        let all1 := all ++ rs
        let tr2 := tr1 ++ [Ev.probeProgress (min (i + batch.length) totalMonths) totalMonths]
        probeLoop wallet monthApi aborted nowMs totalMonths rest
          (i + batch.length) all1 st1 tr2

/-- Post-loop part of `fetchProbe12Months` (lines 357-365): deduplicate
and sort, `onComplete` — or the `catch` block: `onError` once and
resolve with `[]` (cache writes made before the throw persist). -/
def probeAfterLoop
    (res : List Ev × List DriftFundingPaymentRecord × Store × Option String) :
    FetchOutcome :=
  match res with
  | (tr, _, st, some e) =>
    { trace := tr ++ [Ev.errorEv e], records := [], store := st }
  | (tr, all, st, none) =>
    let deduplicated := sortTsDesc (deduplicateRecords all)
    { trace := tr ++ [Ev.completeEv deduplicated]
      records := deduplicated
      store := st }

/-- The probe's `toFetch` list (lines 318-321): the most recent
`min 12 ·` of the months spanning the trailing 365 days, newest first. -/
def probeMonths (nowMs : Nat) : List (Nat × Nat) :=
  let monthsReversed := (getMonthsInRange (nowMs - 365 * 86400000) nowMs).reverse
  monthsReversed.take (min 12 monthsReversed.length)

/-- `fetchProbe12Months` from `src/src/services/funding-fetcher.ts`
(lines 302-366). -/
def fetchProbe12Months (wallet : String)
    (monthApi : Nat → Nat → ApiResult) (aborted : Bool) (nowMs : Nat)
    (store : Store) : FetchOutcome :=
  let monthsReversed := (getMonthsInRange (nowMs - 365 * 86400000) nowMs).reverse
  let totalMonths := min 12 monthsReversed.length
  probeAfterLoop
    (probeLoop wallet monthApi aborted nowMs totalMonths
      (chunks3 (probeMonths nowMs)) 0 [] store [])

/-! ### Injectivity of the string identity key

The code identifies a record by the string `txSig-txSigIndex`.  Because
the decimal digits of `txSigIndex` contain no `-`, the pair
`(txSig, txSigIndex)` is recoverable from the string (split at the last
`-`), so the string key is injective on identity pairs. -/

/-- Reference decimal rendering, most significant digit first. -/
def natDigits (n : Nat) : List Char :=
  if _h : n < 10 then [Nat.digitChar n]
  else natDigits (n / 10) ++ [Nat.digitChar (n % 10)]
decreasing_by
  exact Nat.div_lt_self (by omega) (by omega)

/-! ### Shared concrete data for witnesses and counterexamples -/

/-- Builder for concrete records (ts in epoch seconds). -/
def sampleRecord (ts : Nat) (sig : String) (idx : Nat) :
    DriftFundingPaymentRecord :=
  { ts := ts, txSig := sig, txSigIndex := idx, slot := 1,
    userAuthority := "auth", user := "user", marketIndex := 0,
    fundingPayment := "0.10", baseAssetAmount := "1.0",
    userLastCumulativeFunding := "0", ammCumulativeFundingLong := "0",
    ammCumulativeFundingShort := "0" }

/-- The reference instant of the concrete runs: 2025-10-11T00:00:00Z. -/
def sampleNowMs : Nat := 1760140800000

/-- Classifier for `onError` events. -/
def isErrorEv : Ev → Bool
  | Ev.errorEv _ => true
  | _ => false

/-- Classifier for `onComplete` events. -/
def isCompleteEv : Ev → Bool
  | Ev.completeEv _ => true
  | _ => false

/-- Pairwise-distinct string identity keys. -/
def distinctKeys (l : List DriftFundingPaymentRecord) : Prop :=
  l.Pairwise (fun a b => recordKey a ≠ recordKey b)

/-- Environment for the C10 counterexample: the September 2025 month
request throws, every other month answers one record. -/
def sampleExtApi : Nat → Nat → ApiResult := fun y m =>
  if y = 2025 ∧ m = 9 then ApiResult.err "boom"
  else ApiResult.ok
    { success := true
      records := some [sampleRecord 1759881600
        ("sig" ++ toString y ++ "x" ++ toString m) 0]
      nextPage := none }

/-- The records of a successful monthly response (`success` true and a
`records` field present), `none` otherwise. -/
def respRecordsOf : ApiResult → Option (List DriftFundingPaymentRecord)
  | ApiResult.err _ => none
  | ApiResult.ok resp => if resp.success then resp.records else none

/-- Membership test used to count monthly network requests. -/
def isNetCallMonth : Ev → Bool
  | Ev.netCallMonth _ _ => true
  | _ => false

/-- Environment for the C9 counterexample and witness: every month
answers successfully with zero records. -/
def sampleEmptyApi : Nat → Nat → ApiResult := fun _ _ =>
  ApiResult.ok { success := true, records := some [], nextPage := none }

/-! ### Theorems -/

theorem dedupeAux_sublist (seen : List String) :
    ∀ l : List DriftFundingPaymentRecord, (dedupeAux seen l).Sublist l := by
  intro l
  induction l generalizing seen with
  | nil => simp [dedupeAux]
  | cons r rs ih =>
    simp only [dedupeAux]
    by_cases h : recordKey r ∈ seen
    · exact (if_pos h ▸ (ih seen).trans (List.sublist_cons_self r rs))
    · rw [if_neg h]
      exact List.Sublist.cons₂ r (ih _)

theorem mem_dedupeAux_not_seen {seen : List String}
    {l : List DriftFundingPaymentRecord} {r : DriftFundingPaymentRecord}
    (h : r ∈ dedupeAux seen l) : recordKey r ∉ seen := by
  induction l generalizing seen with
  | nil => simp [dedupeAux] at h
  | cons x xs ih =>
    simp only [dedupeAux] at h
    by_cases hx : recordKey x ∈ seen
    · rw [if_pos hx] at h
      exact ih h
    · rw [if_neg hx] at h
      rcases List.mem_cons.mp h with rfl | h'
      · exact hx
      · intro hseen
        exact ih h' (List.mem_cons_of_mem _ hseen)

theorem dedupeAux_pairwise (seen : List String)
    (l : List DriftFundingPaymentRecord) :
    (dedupeAux seen l).Pairwise (fun a b => recordKey a ≠ recordKey b) := by
  induction l generalizing seen with
  | nil => simp [dedupeAux]
  | cons r rs ih =>
    simp only [dedupeAux]
    by_cases h : recordKey r ∈ seen
    · rw [if_pos h]; exact ih seen
    · rw [if_neg h]
      refine List.Pairwise.cons ?_ (ih _)
      intro b hb hkey
      exact mem_dedupeAux_not_seen hb (hkey ▸ List.mem_cons_self _ _)

/-- Records whose every key is already seen are dropped entirely. -/
theorem dedupeAux_all_seen {seen : List String} :
    ∀ {l : List DriftFundingPaymentRecord},
      (∀ r ∈ l, recordKey r ∈ seen) → dedupeAux seen l = [] := by
  intro l
  induction l with
  | nil => intro _; rfl
  | cons r rs ih =>
    intro h
    simp only [dedupeAux, if_pos (h r (List.mem_cons_self _ _))]
    exact ih fun x hx => h x (List.mem_cons_of_mem _ hx)

private theorem dedupeAux_seen_congr :
    ∀ (l : List DriftFundingPaymentRecord) (s t : List String),
      (∀ k, k ∈ s ↔ k ∈ t) → dedupeAux s l = dedupeAux t l := by
  intro l
  induction l with
  | nil => intro s t _; rfl
  | cons r rs ih =>
    intro s t hst
    simp only [dedupeAux]
    by_cases h : recordKey r ∈ s
    · rw [if_pos h, if_pos ((hst _).mp h), ih _ _ hst]
    · rw [if_neg h, if_neg (fun ht => h ((hst _).mpr ht))]
      refine congrArg _ (ih _ _ ?_)
      intro k
      simp only [List.mem_cons]
      exact or_congr Iff.rfl (hst k)

/-- A pass over a list with pairwise-fresh keys keeps every element and
records their keys as seen. -/
theorem dedupeAux_fresh_append (m : List DriftFundingPaymentRecord) :
    ∀ (l : List DriftFundingPaymentRecord) (seen : List String),
      (keysOf l).Nodup → (∀ r ∈ l, recordKey r ∉ seen) →
      dedupeAux seen (l ++ m) = l ++ dedupeAux (keysOf l ++ seen) m := by
  intro l
  induction l with
  | nil => intro seen _ _; simp [keysOf]
  | cons r rs ih =>
    intro seen hnd hfresh
    have hr : recordKey r ∉ seen := hfresh r (List.mem_cons_self _ _)
    simp only [List.cons_append, dedupeAux, if_neg hr]
    have hnd' : (keysOf rs).Nodup := by
      simpa [keysOf] using hnd.of_cons
    have hfresh' : ∀ x ∈ rs, recordKey x ∉ (recordKey r :: seen) := by
      intro x hx
      simp only [List.mem_cons, not_or]
      constructor
      · intro hkey
        have : recordKey r ∈ keysOf rs := by
          simpa [keysOf] using ⟨x, hx, hkey⟩
        exact (List.nodup_cons.mp (by simpa [keysOf] using hnd)).1 this
      · exact hfresh x (List.mem_cons_of_mem _ hx)
    show r :: dedupeAux (recordKey r :: seen) (rs ++ m) = _
    rw [ih _ hnd' hfresh']
    refine congrArg _ (congrArg _ (dedupeAux_seen_congr m _ _ ?_))
    intro k
    simp only [keysOf, List.map_cons, List.cons_append, List.mem_append,
      List.mem_cons]
    tauto

/-- First-seen wins: any survivor is the first record in the input that
carries its key. -/
theorem dedupeAux_first_seen :
    ∀ (l : List DriftFundingPaymentRecord) (seen : List String)
      (r : DriftFundingPaymentRecord),
      r ∈ dedupeAux seen l → recordKey r ∉ seen →
      l.find? (fun x => recordKey x == recordKey r) = some r := by
  intro l
  induction l with
  | nil => intro seen r h _; simp [dedupeAux] at h
  | cons x xs ih =>
    intro seen r hmem hns
    simp only [dedupeAux] at hmem
    by_cases hx : recordKey x ∈ seen
    · rw [if_pos hx] at hmem
      have hne : (recordKey x == recordKey r) = false := by
        simp only [beq_eq_false_iff_ne, ne_eq]
        intro he; exact hns (he ▸ hx)
      rw [List.find?_cons, hne]
      exact ih seen r hmem hns
    · rw [if_neg hx] at hmem
      rcases List.mem_cons.mp hmem with rfl | h'
      · simp [List.find?_cons]
      · have hnr : recordKey r ∉ (recordKey x :: seen) :=
          mem_dedupeAux_not_seen h'
        have hne : (recordKey x == recordKey r) = false := by
          simp only [beq_eq_false_iff_ne, ne_eq]
          intro he
          exact hnr (he ▸ List.mem_cons_self _ _)
        rw [List.find?_cons, hne]
        exact ih _ r h' hnr

/-- Core idempotence: with pairwise-distinct keys, deduplicating the
self-concatenation gives back the original list. -/
theorem deduplicateRecords_self_append
    (l : List DriftFundingPaymentRecord) (h : (keysOf l).Nodup) :
    deduplicateRecords (l ++ l) = l := by
  unfold deduplicateRecords
  rw [dedupeAux_fresh_append l l [] h (by simp)]
  rw [dedupeAux_all_seen]
  · simp
  · intro r hr
    simp only [keysOf, List.append_nil, List.mem_map]
    exact ⟨r, hr, rfl⟩

theorem natDigits_ne_nil (n : Nat) : natDigits n ≠ [] := by
  rw [natDigits]
  by_cases h : n < 10
  · simp [h]
  · simp [h]

theorem digitChar_toNat {m : Nat} (h : m < 10) :
    (Nat.digitChar m).toNat = 48 + m := by
  interval_cases m <;> rfl

theorem digitChar_inj {m n : Nat} (hm : m < 10) (hn : n < 10)
    (h : Nat.digitChar m = Nat.digitChar n) : m = n := by
  have := congrArg Char.toNat h
  rw [digitChar_toNat hm, digitChar_toNat hn] at this
  omega

theorem digitChar_ne_dash {m : Nat} (hm : m < 10) :
    Nat.digitChar m ≠ '-' := by
  intro h
  have h1 := congrArg Char.toNat h
  rw [digitChar_toNat hm] at h1
  have h2 : ('-' : Char).toNat = 45 := rfl
  rw [h2] at h1
  omega

theorem natDigits_no_dash (n : Nat) : '-' ∉ natDigits n := by
  induction n using Nat.strong_induction_on with
  | _ n ih =>
    rw [natDigits]
    by_cases h : n < 10
    · simp only [h, dif_pos, List.mem_singleton]
      intro he
      exact digitChar_ne_dash h he.symm
    · simp only [h, dif_neg, not_false_iff, List.mem_append,
        List.mem_singleton]
      rintro (hd | he)
      · exact ih (n / 10) (Nat.div_lt_self (by omega) (by omega)) hd
      · exact digitChar_ne_dash (Nat.mod_lt _ (by omega)) he.symm

theorem natDigits_injective :
    ∀ m n : Nat, natDigits m = natDigits n → m = n := by
  intro m
  induction m using Nat.strong_induction_on with
  | _ m ih =>
    intro n h
    have em : natDigits m =
        if h : m < 10 then [Nat.digitChar m]
        else natDigits (m / 10) ++ [Nat.digitChar (m % 10)] := by
      rw [natDigits]
    have en : natDigits n =
        if h : n < 10 then [Nat.digitChar n]
        else natDigits (n / 10) ++ [Nat.digitChar (n % 10)] := by
      rw [natDigits]
    by_cases hm : m < 10 <;> by_cases hn : n < 10
    · rw [em, dif_pos hm, en, dif_pos hn] at h
      exact digitChar_inj hm hn (List.singleton_injective h)
    · rw [em, dif_pos hm, en, dif_neg hn] at h
      have hlen := congrArg List.length h
      simp only [List.length_append, List.length_singleton] at hlen
      have hpos : 0 < (natDigits (n / 10)).length :=
        List.length_pos.mpr (natDigits_ne_nil (n / 10))
      omega
    · rw [em, dif_neg hm, en, dif_pos hn] at h
      have hlen := congrArg List.length h
      simp only [List.length_append, List.length_singleton] at hlen
      have hpos : 0 < (natDigits (m / 10)).length :=
        List.length_pos.mpr (natDigits_ne_nil (m / 10))
      omega
    · rw [em, dif_neg hm, en, dif_neg hn] at h
      rcases List.append_inj' h rfl with ⟨h1, h2⟩
      have hdiv : m / 10 = n / 10 :=
        ih (m / 10) (Nat.div_lt_self (by omega) (by omega)) _ h1
      have hmod : m % 10 = n % 10 :=
        digitChar_inj (Nat.mod_lt _ (by omega)) (Nat.mod_lt _ (by omega))
          (List.singleton_injective h2)
      omega

/-- `Nat.toDigits 10` agrees with the reference rendering (the fuel
`n + 1` always suffices). -/
theorem toDigitsCore_eq_natDigits :
    ∀ fuel n ds, n ≤ fuel →
      Nat.toDigitsCore 10 (fuel + 1) n ds = natDigits n ++ ds := by
  intro fuel
  induction fuel with
  | zero =>
    intro n ds hn
    interval_cases n
    have e0 : natDigits 0 = ['0'] := by rw [natDigits]; rfl
    rw [e0]
    rfl
  | succ fuel ih =>
    intro n ds hn
    show (if n / 10 = 0 then _ else Nat.toDigitsCore 10 (fuel + 1) (n / 10) _) = _
    by_cases h : n / 10 = 0
    · have hlt : n < 10 := by omega
      have en : natDigits n = [Nat.digitChar n] := by
        rw [natDigits]; exact dif_pos hlt
      rw [if_pos h, en, Nat.mod_eq_of_lt hlt]
      rfl
    · have hge : ¬ n < 10 := by
        intro hc
        exact h (Nat.div_eq_of_lt hc)
      have en : natDigits n = natDigits (n / 10) ++ [Nat.digitChar (n % 10)] := by
        rw [natDigits]; exact dif_neg hge
      rw [if_neg h, ih (n / 10) (Nat.digitChar (n % 10) :: ds) (by omega), en,
        List.append_assoc]
      rfl

theorem repr_data (n : Nat) : (Nat.repr n).data = natDigits n := by
  show (List.asString (Nat.toDigitsCore 10 (n + 1) n [])).data = _
  rw [toDigitsCore_eq_natDigits n n [] (Nat.le_refl n), List.append_nil]
  rfl

theorem repr_injective {m n : Nat} (h : Nat.repr m = Nat.repr n) : m = n :=
  natDigits_injective m n (by rw [← repr_data, ← repr_data, h])

theorem repr_no_dash (n : Nat) : '-' ∉ (Nat.repr n).data := by
  rw [repr_data]; exact natDigits_no_dash n

/-- Splitting at the separating dash: if the suffixes contain no dash,
the decomposition is unique even when the prefixes contain dashes. -/
theorem dash_split_inj :
    ∀ (a a' d d' : List Char), '-' ∉ d → '-' ∉ d' →
      a ++ '-' :: d = a' ++ '-' :: d' → a = a' ∧ d = d' := by
  intro a
  induction a with
  | nil =>
    intro a' d d' hd hd' h
    cases a' with
    | nil => simpa using h
    | cons c cs =>
      simp only [List.nil_append, List.cons_append, List.cons.injEq] at h
      exact absurd (h.2 ▸ List.mem_append_right cs (List.mem_cons_self '-' d'))
        (h.1 ▸ hd)
  | cons c cs ih =>
    intro a' d d' hd hd' h
    cases a' with
    | nil =>
      simp only [List.cons_append, List.nil_append, List.cons.injEq] at h
      exact absurd
        (h.2.symm ▸ List.mem_append_right cs (List.mem_cons_self '-' d))
        (h.1.symm ▸ hd')
    | cons c' cs' =>
      simp only [List.cons_append, List.cons.injEq] at h
      obtain ⟨rfl, h2⟩ := h
      obtain ⟨h3, h4⟩ := ih cs' d d' hd hd' h2
      exact ⟨by rw [h3], h4⟩

/-- The string identity key determines the `(txSig, txSigIndex)` pair. -/
theorem recordKey_inj {a b : DriftFundingPaymentRecord}
    (h : recordKey a = recordKey b) :
    a.txSig = b.txSig ∧ a.txSigIndex = b.txSigIndex := by
  have hdata := congrArg String.data h
  simp only [recordKey, String.data_append] at hdata
  have := dash_split_inj a.txSig.data b.txSig.data
    (toString a.txSigIndex).data (toString b.txSigIndex).data
    (repr_no_dash _) (repr_no_dash _)
    (by simpa [List.append_assoc, List.singleton_append] using hdata)
  refine ⟨?_, repr_injective (String.ext this.2)⟩
  exact String.ext this.1

/-- Pairwise-distinct identity keys imply pairwise-distinct string keys. -/
theorem keysOf_nodup_of_ident_nodup {l : List DriftFundingPaymentRecord}
    (h : (l.map (fun r => (r.txSig, r.txSigIndex))).Nodup) :
    (keysOf l).Nodup := by
  have h' : l.Pairwise
      (fun a b => (a.txSig, a.txSigIndex) ≠ (b.txSig, b.txSigIndex)) :=
    List.pairwise_map.mp h
  show (l.map recordKey).Nodup
  refine List.pairwise_map.mpr (h'.imp ?_)
  intro a b hne hkey
  rcases recordKey_inj hkey with ⟨h1, h2⟩
  exact hne (by rw [h1, h2])

/-- C4. The Record Deduplicator is an idempotent merge: on a list whose
identity pairs `(txSig, txSigIndex)` are pairwise distinct,
deduplicating the self-concatenation returns the list unchanged; in
general the output is a sublist of the input (order preserved modulo
removal) and every surviving record is the first occurrence of its
identity key. -/
theorem dedupe_idempotent_first_seen_wins
    (R1 l : List DriftFundingPaymentRecord) :
    ((R1.map (fun r => (r.txSig, r.txSigIndex))).Nodup →
        deduplicateRecords (R1 ++ R1) = R1) ∧
    (deduplicateRecords l).Sublist l ∧
    (∀ r ∈ deduplicateRecords l,
        l.find? (fun x => recordKey x == recordKey r) = some r) := by
  refine ⟨?_, dedupeAux_sublist [] l, ?_⟩
  · intro h
    exact deduplicateRecords_self_append R1 (keysOf_nodup_of_ident_nodup h)
  · intro r hr
    exact dedupeAux_first_seen l [] r hr (by simp)

/-- Witness for C4 at a concrete two-record list. -/
theorem dedupe_idempotent_first_seen_wins_witness :
    deduplicateRecords
        ([sampleRecord 100 "sigA" 0, sampleRecord 90 "sigA" 1]
          ++ [sampleRecord 100 "sigA" 0, sampleRecord 90 "sigA" 1])
      = [sampleRecord 100 "sigA" 0, sampleRecord 90 "sigA" 1] :=
  (dedupe_idempotent_first_seen_wins
      [sampleRecord 100 "sigA" 0, sampleRecord 90 "sigA" 1] []).1
    (by decide)

/-- C8. The cache staleness policy: a cached bucket of a closed month is
never stale, a cached current-month bucket is stale exactly when its
last fetch is more than 5 minutes old, and an absent bucket always
needs a fetch. -/
theorem shouldRefreshMonth_policy (b : CachedFundingMonth) (nowMs : Nat) :
    shouldRefreshMonth none true nowMs = true ∧
    shouldRefreshMonth none false nowMs = true ∧
    shouldRefreshMonth (some b) false nowMs = false ∧
    (shouldRefreshMonth (some b) true nowMs = true ↔
      5 * 60 * 1000 < nowMs - b.fetchedAt) := by
  refine ⟨rfl, rfl, rfl, ?_⟩
  simp [shouldRefreshMonth]

/-- C2. Once the machine is at `30d_loaded`, `loading_extended` or
`complete`, a `30D_LOADED` action returns the state unchanged: no field
(in particular neither the phase nor the extended queue) is modified. -/
theorem d30_loaded_ignored_at_or_past_30d (s : LoadingState)
    (h : s.phase = LoadingPhase.d30_loaded ∨
      s.phase = LoadingPhase.loading_extended ∨
      s.phase = LoadingPhase.complete) :
    loadingReducer s LoadingAction.d30_loaded = s := by
  simp [loadingReducer, if_pos h]

/-- Witness for C2 at a concrete state in phase `30d_loaded`. -/
theorem d30_loaded_ignored_at_or_past_30d_witness :
    loadingReducer
        { phase := LoadingPhase.d30_loaded, daysLoaded := 30,
          currentlyFetching := some Timeframe.m6,
          extendedQueue := [Timeframe.m6, Timeframe.y1],
          hasCacheHit := true, has14DayMilestone := true, error := none }
        LoadingAction.d30_loaded
      = { phase := LoadingPhase.d30_loaded, daysLoaded := 30,
          currentlyFetching := some Timeframe.m6,
          extendedQueue := [Timeframe.m6, Timeframe.y1],
          hasCacheHit := true, has14DayMilestone := true, error := none } :=
  d30_loaded_ignored_at_or_past_30d _ (Or.inl rfl)

/-- Reachability invariant: a reachable state in phase `complete` has an
empty extended queue. -/
theorem reachable_complete_queue_nil :
    ∀ s, Reachable s → s.phase = LoadingPhase.complete →
      s.extendedQueue = [] := by
  intro s h
  induction h with
  | init => intro hph; simp [initialLoadingState] at hph
  | step s a _ ih =>
    intro hph
    cases a with
    | reset => simp [loadingReducer, initialLoadingState] at hph
    | start_fresh => simp [loadingReducer, initialLoadingState] at hph
    | start_from_cache d c =>
      simp only [loadingReducer] at hph ⊢
      split_ifs at hph ⊢ with h1 h2 h3 h4 h5 <;> simp_all
    | d7_loaded d => simp [loadingReducer] at hph
    | d14_milestone => exact ih hph
    | d30_loaded =>
      simp only [loadingReducer] at hph ⊢
      split_ifs at hph ⊢ with h1
      exact ih hph
    | extended_loaded tf =>
      simp only [loadingReducer] at hph ⊢
      split_ifs at hph ⊢ with h1
      exact List.length_eq_zero.mp (by omega)
    | complete => simp [loadingReducer]
    | set_fetching tf => exact ih hph
    | set_error e => exact ih hph
    | update_days_loaded d => exact ih hph

/-- C1 (amended). For a reachable state, every action other than the
session-(re)start actions `RESET`, `START_FRESH`, `START_FROM_CACHE` and
other than `7D_LOADED` never decreases the phase along the order
`idle < loading_7d < 7d_loaded < loading_30d < 30d_loaded <
loading_extended < complete`. -/
theorem loadingReducer_phase_monotone (s : LoadingState) (a : LoadingAction)
    (hr : Reachable s) (ha : isMonotoneSafe a = true) :
    phaseRank s.phase ≤ phaseRank (loadingReducer s a).phase := by
  cases a with
  | reset => simp [isMonotoneSafe] at ha
  | start_fresh => simp [isMonotoneSafe] at ha
  | start_from_cache d c => simp [isMonotoneSafe] at ha
  | d7_loaded d => simp [isMonotoneSafe] at ha
  | d14_milestone => exact Nat.le_refl _
  | d30_loaded =>
    simp only [loadingReducer]
    split_ifs with h1
    · exact Nat.le_refl _
    · cases hs : s.phase <;> simp_all [phaseRank]
  | extended_loaded tf =>
    simp only [loadingReducer]
    by_cases hc : s.phase = LoadingPhase.complete
    · have hq := reachable_complete_queue_nil s hr hc
      rw [hc, hq]
      simp [phaseRank]
    · split_ifs with h1 <;> cases hs : s.phase <;> simp_all [phaseRank]
  | complete =>
    cases hs : s.phase <;> simp [loadingReducer, phaseRank]
  | set_fetching tf => exact Nat.le_refl _
  | set_error e => exact Nat.le_refl _
  | update_days_loaded d => exact Nat.le_refl _

/-- Witness for the amended C1: a concrete reachable state and a safe
action at which the monotonicity theorem applies. -/
theorem loadingReducer_phase_monotone_witness :
    phaseRank (loadingReducer initialLoadingState
        LoadingAction.start_fresh).phase ≤
      phaseRank (loadingReducer
        (loadingReducer initialLoadingState LoadingAction.start_fresh)
        LoadingAction.d30_loaded).phase :=
  loadingReducer_phase_monotone _ LoadingAction.d30_loaded
    (Reachable.step _ _ Reachable.init) rfl

/-- Counterexample to C1 as stated: the reachable state obtained by
`START_FRESH`, `7D_LOADED`, `30D_LOADED` sits at phase `30d_loaded`, yet
the (non-`RESET`) action `7D_LOADED` moves it back to `7d_loaded`: the
`7D_LOADED` reducer case has no phase guard. -/
theorem loadingReducer_d7_rewinds_phase :
    Reachable (loadingReducer (loadingReducer
        (loadingReducer initialLoadingState LoadingAction.start_fresh)
        (LoadingAction.d7_loaded 7)) LoadingAction.d30_loaded) ∧
    (loadingReducer (loadingReducer
        (loadingReducer initialLoadingState LoadingAction.start_fresh)
        (LoadingAction.d7_loaded 7)) LoadingAction.d30_loaded).phase
      = LoadingPhase.d30_loaded ∧
    (loadingReducer (loadingReducer (loadingReducer
        (loadingReducer initialLoadingState LoadingAction.start_fresh)
        (LoadingAction.d7_loaded 7)) LoadingAction.d30_loaded)
        (LoadingAction.d7_loaded 8)).phase = LoadingPhase.d7_loaded ∧
    phaseRank (loadingReducer (loadingReducer (loadingReducer
        (loadingReducer initialLoadingState LoadingAction.start_fresh)
        (LoadingAction.d7_loaded 7)) LoadingAction.d30_loaded)
        (LoadingAction.d7_loaded 8)).phase
      < phaseRank (loadingReducer (loadingReducer
        (loadingReducer initialLoadingState LoadingAction.start_fresh)
        (LoadingAction.d7_loaded 7)) LoadingAction.d30_loaded).phase :=
  ⟨Reachable.step _ _ (Reachable.step _ _ (Reachable.step _ _ Reachable.init)),
    by decide, by decide, by decide⟩

/-- C7. When the gap resolver answers `none` for the 30-day request, the
bounded incremental fetch makes no network call: it fires `onCacheHit`,
the coverage-dependent 7d/14d milestones and the 30d milestone, hands
the cached records to `onRecords` and `onComplete`, returns them, and
leaves the store untouched. -/
theorem fetchIncremental_cache_hit (wallet : String) (pages : List ApiResult)
    (aborted : Bool) (nowMs : Nat) (store : Store)
    (h : (getMissingDateRange wallet 30 nowMs store).needsFetch =
      NeedsFetch.nothing) :
    fetchFundingIncremental wallet pages aborted nowMs store =
      { trace :=
          [Ev.cacheHit]
          ++ (if 7 ≤ getDaysCovered (getCachedRecords wallet 30 nowMs store)
                (nowMs / 1000) then [Ev.milestone "7d"] else [])
          ++ (if 14 ≤ getDaysCovered (getCachedRecords wallet 30 nowMs store)
                (nowMs / 1000) then [Ev.milestone "14d"] else [])
          ++ [Ev.milestone "30d",
              Ev.recordsEv (getCachedRecords wallet 30 nowMs store)
                (getDaysCovered (getCachedRecords wallet 30 nowMs store)
                  (nowMs / 1000)),
              Ev.completeEv (getCachedRecords wallet 30 nowMs store)]
        records := getCachedRecords wallet 30 nowMs store
        store := store } ∧
    Ev.netCall ∉ (fetchFundingIncremental wallet pages aborted nowMs store).trace ∧
    (∀ y m, Ev.netCallMonth y m ∉
      (fetchFundingIncremental wallet pages aborted nowMs store).trace) := by
  have he : fetchFundingIncremental wallet pages aborted nowMs store =
      { trace :=
          [Ev.cacheHit]
          ++ (if 7 ≤ getDaysCovered (getCachedRecords wallet 30 nowMs store)
                (nowMs / 1000) then [Ev.milestone "7d"] else [])
          ++ (if 14 ≤ getDaysCovered (getCachedRecords wallet 30 nowMs store)
                (nowMs / 1000) then [Ev.milestone "14d"] else [])
          ++ [Ev.milestone "30d",
              Ev.recordsEv (getCachedRecords wallet 30 nowMs store)
                (getDaysCovered (getCachedRecords wallet 30 nowMs store)
                  (nowMs / 1000)),
              Ev.completeEv (getCachedRecords wallet 30 nowMs store)]
        records := getCachedRecords wallet 30 nowMs store
        store := store } := by
    unfold fetchFundingIncremental
    rw [if_pos h]
  refine ⟨he, ?_, ?_⟩
  · rw [he]
    split_ifs <;> simp
  · intro y m
    rw [he]
    split_ifs <;> simp

/-- Witness for C7: a store whose fresh day index covers the full 30-day
window makes the resolver answer `none`, and the concrete run follows
the cache-hit branch. -/
theorem fetchIncremental_cache_hit_witness :
    (getMissingDateRange "walletA" 30 sampleNowMs
        ⟨[(("walletA", 2025, 10),
            ⟨[sampleRecord 1760133600 "sigA" 0], sampleNowMs, false⟩)],
          [("walletA", ⟨"2025-10-11", "2000-01-01", sampleNowMs⟩)]⟩).needsFetch
      = NeedsFetch.nothing ∧
    Ev.netCall ∉ (fetchFundingIncremental "walletA" [] false sampleNowMs
        ⟨[(("walletA", 2025, 10),
            ⟨[sampleRecord 1760133600 "sigA" 0], sampleNowMs, false⟩)],
          [("walletA", ⟨"2025-10-11", "2000-01-01", sampleNowMs⟩)]⟩).trace :=
  ⟨by decide,
    (fetchIncremental_cache_hit "walletA" [] false sampleNowMs _
      (by decide)).2.1⟩

theorem incStep_trace_events (nowSec : Nat)
    (rs : List DriftFundingPaymentRecord) (st : IncLoopState)
    (h : ∀ ev ∈ st.trace, isErrorEv ev = false ∧ isCompleteEv ev = false) :
    ∀ ev ∈ (incStep nowSec rs st).trace,
      isErrorEv ev = false ∧ isCompleteEv ev = false := by
  intro ev hev
  simp only [incStep] at hev
  split_ifs at hev <;>
    (rw [List.append_assoc] at hev
     rcases List.mem_append.mp hev with hev | hev
     · exact h ev hev
     · rcases List.mem_append.mp hev with hev | hev <;> fin_cases hev <;>
         exact ⟨rfl, rfl⟩)

theorem runPages_trace_events (aborted : Bool) (nowSec cutoff : Nat) :
    ∀ (pages : List ApiResult) (st : IncLoopState),
      (∀ ev ∈ st.trace, isErrorEv ev = false ∧ isCompleteEv ev = false) →
      ∀ ev ∈ (runPages aborted nowSec cutoff pages st).1.trace,
        isErrorEv ev = false ∧ isCompleteEv ev = false := by
  intro pages
  induction pages with
  | nil =>
    intro st h
    rw [runPages]
    split_ifs <;> exact h
  | cons pr rest ih =>
    intro st h
    rw [runPages]
    have hst1 : ∀ ev ∈ st.trace ++ [Ev.netCall],
        isErrorEv ev = false ∧ isCompleteEv ev = false := by
      intro ev hev
      rcases List.mem_append.mp hev with hev | hev
      · exact h ev hev
      · rcases List.mem_singleton.mp hev with rfl
        exact ⟨rfl, rfl⟩
    split_ifs with hab
    · exact h
    · cases pr with
      | err e => exact hst1
      | ok resp =>
        obtain ⟨succ, recs, np⟩ := resp
        cases succ with
        | false =>
          cases recs <;> cases np
          · exact hst1
          · exact ih _ hst1
          · exact hst1
          · exact ih _ hst1
        | true =>
          cases recs with
          | none =>
            cases np
            · exact hst1
            · exact ih _ hst1
          | some rs =>
            have hst2 := incStep_trace_events nowSec rs
              { st with trace := st.trace ++ [Ev.netCall] } hst1
            dsimp only
            split_ifs with hbrk
            · exact hst2
            · cases np
              · exact hst2
              · exact ih _ hst2

theorem incPreTrace_events (cachedRecords : List DriftFundingPaymentRecord)
    (cachedDays : Nat) :
    ∀ ev ∈ incPreTrace cachedRecords cachedDays,
      isErrorEv ev = false ∧ isCompleteEv ev = false := by
  intro ev hev
  unfold incPreTrace at hev
  split_ifs at hev <;> simp at hev <;>
    rcases hev with rfl | rfl | rfl | rfl <;> exact ⟨rfl, rfl⟩

/-- When the loop state carries no error event, an `onError` event in
the outcome of `incAfterLoop` forces the thrown branch, whose store is
the pre-fetch store and whose result is empty. -/
theorem incAfterLoop_error (wallet : String) (nowMs : Nat) (store : Store)
    (t30 : Bool) (res : IncLoopState × Option String) (e : String)
    (hst : ∀ ev ∈ res.1.trace, isErrorEv ev = false ∧ isCompleteEv ev = false)
    (h : Ev.errorEv e ∈ (incAfterLoop wallet nowMs store t30 res).trace) :
    (incAfterLoop wallet nowMs store t30 res).store = store ∧
    (incAfterLoop wallet nowMs store t30 res).records = [] := by
  rcases res with ⟨st, oe⟩
  cases oe with
  | some e' => exact ⟨rfl, rfl⟩
  | none =>
    exfalso
    simp only [incAfterLoop, List.mem_append] at h
    rcases h with ((h | h) | h) | h
    · exact absurd (hst _ h).1 (by simp [isErrorEv])
    · revert h; split_ifs <;> simp
    · revert h; split_ifs <;> simp
    · simp at h

/-- C3 (amended). If the bounded incremental fetch throws anywhere
(surfacing as an `onError` event), nothing has been merged into the
persistent cache: `storeRecords` runs only after the pagination loop
completes, so the store returned equals the pre-fetch store — data
cached before the call is retained unchanged, pages fetched during the
failed run are discarded — and the caller receives `[]`. -/
theorem fetchIncremental_error_keeps_prefetch_cache (wallet : String)
    (pages : List ApiResult) (aborted : Bool) (nowMs : Nat) (store : Store)
    (e : String)
    (h : Ev.errorEv e ∈
      (fetchFundingIncremental wallet pages aborted nowMs store).trace) :
    (fetchFundingIncremental wallet pages aborted nowMs store).store = store ∧
    (fetchFundingIncremental wallet pages aborted nowMs store).records = [] := by
  unfold fetchFundingIncremental at h ⊢
  by_cases hc : (getMissingDateRange wallet 30 nowMs store).needsFetch =
      NeedsFetch.nothing
  · rw [if_pos hc] at h
    exfalso
    revert h
    split_ifs <;> simp
  · rw [if_neg hc] at h ⊢
    refine incAfterLoop_error wallet nowMs store _ _ e ?_ h
    exact runPages_trace_events aborted (nowMs / 1000)
      (nowMs / 1000 - 30 * 24 * 60 * 60) pages _
      (incPreTrace_events _ _)

/-- Counterexample to C3 as stated: page 1 succeeds and carries a
record, page 2 throws; the resulting store is exactly the (empty)
pre-fetch store, so the page fetched before the failure was never
merged into the persistent monthly cache. -/
theorem fetchIncremental_partial_pages_not_cached :
    (fetchFundingIncremental "walletA"
        [ApiResult.ok ⟨true, some [sampleRecord 1760133600 "sigA" 0], some "2"⟩,
          ApiResult.err "network down"]
        false sampleNowMs ⟨[], []⟩).trace
      = [Ev.netCall, Ev.netCall, Ev.errorEv "network down"] ∧
    (fetchFundingIncremental "walletA"
        [ApiResult.ok ⟨true, some [sampleRecord 1760133600 "sigA" 0], some "2"⟩,
          ApiResult.err "network down"]
        false sampleNowMs ⟨[], []⟩).store = ⟨[], []⟩ ∧
    getCachedFundingMonth "walletA" 2025 10
        (fetchFundingIncremental "walletA"
          [ApiResult.ok ⟨true, some [sampleRecord 1760133600 "sigA" 0], some "2"⟩,
            ApiResult.err "network down"]
          false sampleNowMs ⟨[], []⟩).store = none := by
  refine ⟨?_, ?_, ?_⟩ <;> decide

/-- Witness for the amended C3 at the same concrete failing run. -/
theorem fetchIncremental_error_keeps_prefetch_cache_witness :
    (fetchFundingIncremental "walletA"
        [ApiResult.ok ⟨true, some [sampleRecord 1760133600 "sigA" 0], some "2"⟩,
          ApiResult.err "network down"]
        false sampleNowMs ⟨[], []⟩).store = ⟨[], []⟩ ∧
    (fetchFundingIncremental "walletA"
        [ApiResult.ok ⟨true, some [sampleRecord 1760133600 "sigA" 0], some "2"⟩,
          ApiResult.err "network down"]
        false sampleNowMs ⟨[], []⟩).records = [] :=
  fetchIncremental_error_keeps_prefetch_cache "walletA"
    [ApiResult.ok ⟨true, some [sampleRecord 1760133600 "sigA" 0], some "2"⟩,
      ApiResult.err "network down"]
    false sampleNowMs ⟨[], []⟩ "network down" (by decide)

theorem assocGet_set_self {α β : Type} [DecidableEq α] (k : α) (v : β) :
    ∀ l : List (α × β), assocGet k (assocSet k v l) = some v := by
  intro l
  induction l with
  | nil => simp [assocGet, assocSet]
  | cons p ps ih =>
    simp only [assocSet]
    split_ifs with hp
    · simp [assocGet]
    · simp only [assocGet, List.find?_cons]
      rw [show (decide (p.1 = k)) = false by simpa using hp]
      exact ih

theorem jsCharsLt_irrefl : ∀ l : List Char, jsCharsLt l l = false := by
  intro l
  induction l with
  | nil => rfl
  | cons c cs ih =>
    simp only [jsCharsLt]
    rw [if_neg (by omega), if_neg (by omega)]
    exact ih

theorem jsStrLt_irrefl (s : String) : jsStrLt s s = false :=
  jsCharsLt_irrefl s.data

/-- The monthly-bucket merge loop of `storeRecords` never touches the
day-index half of the store. -/
theorem storeMonths_foldl_dayIndexes (wallet : String) (nowMs : Nat) :
    ∀ (groups : List ((Nat × Nat) × List DriftFundingPaymentRecord))
      (st : Store),
      (groups.foldl (storeMonthGroup wallet nowMs) st).dayIndexes
        = st.dayIndexes := by
  intro groups
  induction groups with
  | nil => intro st; rfl
  | cons g gs ih =>
    intro st
    rw [List.foldl_cons, ih]
    rfl

theorem sortTsDesc_perm (l : List DriftFundingPaymentRecord) :
    List.Perm (sortTsDesc l) l :=
  List.perm_insertionSort tsGe l

theorem sortTsDesc_sorted (l : List DriftFundingPaymentRecord) :
    (sortTsDesc l).Sorted tsGe :=
  List.sorted_insertionSort tsGe l

/-- C6 (amended). After `storeRecords` with a non-empty batch, the day
index exists with `fetchedAt = now`; its `oldestCachedDate` never moves
later (it is the minimum of the existing value and the batch's oldest
date); but its `lastFetchedDate` is overwritten with the date of the
newest record of the batch, whatever the previous value was — so the
covered range's upper end can move earlier when the batch holds only
older records. -/
theorem storeRecords_day_index (wallet : String)
    (records : List DriftFundingPaymentRecord) (nowMs : Nat) (store : Store)
    (h : records ≠ []) :
    ∃ newIdx,
      getCachedDayIndex wallet (storeRecords wallet records nowMs store)
        = some newIdx ∧
      newIdx.fetchedAt = nowMs ∧
      (∃ rmax, rmax ∈ records ∧
        newIdx.lastFetchedDate = formatDateYYYYMMDD (rmax.ts * 1000) ∧
        ∀ r ∈ records, r.ts ≤ rmax.ts) ∧
      (∀ old, getCachedDayIndex wallet store = some old →
        jsStrLt old.oldestCachedDate newIdx.oldestCachedDate = false) := by
  unfold storeRecords
  rw [if_neg h]
  cases hs : sortTsDesc records with
  | nil =>
    exact absurd (List.Perm.symm (hs ▸ sortTsDesc_perm records))
      (by simpa using h)
  | cons newest tail =>
    have hne : newest :: tail ≠ [] := by simp
    cases hl : (newest :: tail).getLast? with
    | none => simp [List.getLast?_eq_getLast _ hne] at hl
    | some oldest =>
      refine ⟨_, assocGet_set_self _ _ _, rfl, ?_, ?_⟩
      · refine ⟨newest, ?_, rfl, ?_⟩
        · exact (sortTsDesc_perm records).subset (hs ▸ List.mem_cons_self _ _)
        · intro r hr
          have hr' : r ∈ sortTsDesc records :=
            (sortTsDesc_perm records).symm.subset hr
          rw [hs] at hr'
          rcases List.mem_cons.mp hr' with rfl | hr'
          · exact Nat.le_refl _
          · exact (List.pairwise_cons.mp
              (by simpa [List.Sorted, hs] using sortTsDesc_sorted records)).1
              r hr'
      · intro old hold
        have hidx : getCachedDayIndex wallet
            ((groupByMonth records).foldl (storeMonthGroup wallet nowMs) store)
            = some old := by
          show assocGet _ _ = _
          rw [storeMonths_foldl_dayIndexes]
          exact hold
        rw [hidx]
        dsimp only
        split_ifs with hcmp
        · exact jsStrLt_irrefl _
        · simpa using hcmp

/-- Counterexample to C6 as stated: starting from a day index that
covers up to today (`lastFetchedDate = "2025-10-11"`, stale by ten
minutes), a successful fetch whose only record is 40 days old (stored
via `storeRecords`) rewrites `lastFetchedDate` to `"2025-09-01"` —
strictly earlier than before, so the covered range is not a superset of
the pre-fetch range. -/
theorem storeRecords_day_index_can_regress :
    ((fetchFundingIncremental "walletA"
        [ApiResult.ok ⟨true, some [sampleRecord 1756684800 "sigOld" 0], none⟩]
        false sampleNowMs
        ⟨[], [("walletA",
          ⟨"2025-10-11", "2000-01-01", sampleNowMs - 600000⟩)]⟩).trace.countP
        isErrorEv = 0) ∧
    ((fetchFundingIncremental "walletA"
        [ApiResult.ok ⟨true, some [sampleRecord 1756684800 "sigOld" 0], none⟩]
        false sampleNowMs
        ⟨[], [("walletA",
          ⟨"2025-10-11", "2000-01-01", sampleNowMs - 600000⟩)]⟩).trace.countP
        isCompleteEv = 1) ∧
    getCachedDayIndex "walletA"
        (fetchFundingIncremental "walletA"
          [ApiResult.ok ⟨true, some [sampleRecord 1756684800 "sigOld" 0], none⟩]
          false sampleNowMs
          ⟨[], [("walletA",
            ⟨"2025-10-11", "2000-01-01", sampleNowMs - 600000⟩)]⟩).store
      = some ⟨"2025-09-01", "2000-01-01", sampleNowMs⟩ ∧
    jsStrLt "2025-09-01" "2025-10-11" = true := by
  refine ⟨?_, ?_, ?_, ?_⟩ <;> decide

/-- Witness for the amended C6 at a concrete one-record batch over a
store holding an earlier day index. -/
theorem storeRecords_day_index_witness :
    ∃ newIdx,
      getCachedDayIndex "walletA"
          (storeRecords "walletA" [sampleRecord 1756684800 "sigOld" 0]
            sampleNowMs
            ⟨[], [("walletA",
              ⟨"2025-10-11", "2000-01-01", sampleNowMs - 600000⟩)]⟩)
        = some newIdx ∧
      newIdx.fetchedAt = sampleNowMs ∧
      (∃ rmax, rmax ∈ [sampleRecord 1756684800 "sigOld" 0] ∧
        newIdx.lastFetchedDate = formatDateYYYYMMDD (rmax.ts * 1000) ∧
        ∀ r ∈ [sampleRecord 1756684800 "sigOld" 0], r.ts ≤ rmax.ts) ∧
      (∀ old,
        getCachedDayIndex "walletA"
            ⟨[], [("walletA",
              ⟨"2025-10-11", "2000-01-01", sampleNowMs - 600000⟩)]⟩
          = some old →
        jsStrLt old.oldestCachedDate newIdx.oldestCachedDate = false) :=
  storeRecords_day_index "walletA" [sampleRecord 1756684800 "sigOld" 0]
    sampleNowMs
    ⟨[], [("walletA", ⟨"2025-10-11", "2000-01-01", sampleNowMs - 600000⟩)]⟩
    (by decide)

theorem distinctKeys_symmetric :
    Symmetric (fun a b : DriftFundingPaymentRecord =>
      recordKey a ≠ recordKey b) :=
  fun _ _ h => fun he => h he.symm

theorem distinctKeys_sort_dedupe (l : List DriftFundingPaymentRecord) :
    distinctKeys (sortTsDesc (deduplicateRecords l)) :=
  ((sortTsDesc_perm (deduplicateRecords l)).pairwise_iff
    @distinctKeys_symmetric).mpr (dedupeAux_pairwise [] l)

theorem distinctKeys_getCachedRecords (wallet : String) (days nowMs : Nat)
    (st : Store) : distinctKeys (getCachedRecords wallet days nowMs st) :=
  distinctKeys_sort_dedupe _

/-- No two records of a `distinctKeys` list share `(txSig, txSigIndex)`:
equal identity pairs would give equal string keys. -/
theorem distinctKeys_ident (l : List DriftFundingPaymentRecord)
    (h : distinctKeys l) :
    l.Pairwise (fun a b =>
      ¬(a.txSig = b.txSig ∧ a.txSigIndex = b.txSigIndex)) := by
  refine h.imp ?_
  intro a b hne ⟨h1, h2⟩
  exact hne (by simp [recordKey, h1, h2])

theorem extLoop_trace_events (wallet : String)
    (monthApi : Nat → Nat → ApiResult) (aborted : Bool)
    (nowMs totalMonths : Nat) :
    ∀ (chunks : List (List (Nat × Nat))) (fc : Nat)
      (all : List DriftFundingPaymentRecord) (st : Store) (tr : List Ev),
      (∀ ev ∈ tr, isErrorEv ev = false ∧ isCompleteEv ev = false) →
      ∀ ev ∈ (extLoop wallet monthApi aborted nowMs totalMonths chunks fc
        all st tr).1,
        isErrorEv ev = false ∧ isCompleteEv ev = false := by
  intro chunks
  induction chunks with
  | nil => intro fc all st tr h; exact h
  | cons batch rest ih =>
    intro fc all st tr h
    rw [extLoop]
    split_ifs with hab
    · exact h
    · refine ih _ _ _ _ ?_
      intro ev hev
      rcases List.mem_append.mp hev with hev | hev
      · rcases List.mem_append.mp hev with hev | hev
        · exact h ev hev
        · rcases List.mem_map.mp hev with ⟨ym, _, rfl⟩
          exact ⟨rfl, rfl⟩
      · rcases List.mem_cons.mp hev with rfl | hev
        · exact ⟨rfl, rfl⟩
        · rcases List.mem_singleton.mp hev with rfl
          exact ⟨rfl, rfl⟩

theorem probeLoop_trace_events (wallet : String)
    (monthApi : Nat → Nat → ApiResult) (aborted : Bool)
    (nowMs totalMonths : Nat) :
    ∀ (chunks : List (List (Nat × Nat))) (i : Nat)
      (all : List DriftFundingPaymentRecord) (st : Store) (tr : List Ev),
      (∀ ev ∈ tr, isErrorEv ev = false ∧ isCompleteEv ev = false) →
      ∀ ev ∈ (probeLoop wallet monthApi aborted nowMs totalMonths chunks i
        all st tr).1,
        isErrorEv ev = false ∧ isCompleteEv ev = false := by
  intro chunks
  induction chunks with
  | nil => intro i all st tr h; exact h
  | cons batch rest ih =>
    intro i all st tr h
    rw [probeLoop]
    have h1 : ∀ ev ∈ tr ++ batch.map (fun ym => Ev.netCallMonth ym.1 ym.2),
        isErrorEv ev = false ∧ isCompleteEv ev = false := by
      intro ev hev
      rcases List.mem_append.mp hev with hev | hev
      · exact h ev hev
      · rcases List.mem_map.mp hev with ⟨ym, _, rfl⟩
        exact ⟨rfl, rfl⟩
    split_ifs with hab
    · exact h
    · rcases hb : probeBatch wallet monthApi nowMs batch st with ⟨rs, st1, oe⟩
      cases oe with
      | some e => exact h1
      | none =>
        refine ih _ _ _ _ ?_
        intro ev hev
        rcases List.mem_append.mp hev with hev | hev
        · exact h1 ev hev
        · rcases List.mem_singleton.mp hev with rfl
          exact ⟨rfl, rfl⟩

theorem incAfterLoop_outcome (wallet : String) (nowMs : Nat) (store : Store)
    (t30 : Bool) (res : IncLoopState × Option String)
    (h : ∀ ev ∈ res.1.trace, isErrorEv ev = false ∧ isCompleteEv ev = false) :
    distinctKeys (incAfterLoop wallet nowMs store t30 res).records ∧
    (∀ rs, Ev.completeEv rs ∈ (incAfterLoop wallet nowMs store t30 res).trace →
      distinctKeys rs) ∧
    (incAfterLoop wallet nowMs store t30 res).trace.countP isErrorEv ≤ 1 ∧
    (∀ e, Ev.errorEv e ∈ (incAfterLoop wallet nowMs store t30 res).trace →
      (incAfterLoop wallet nowMs store t30 res).records = []) := by
  rcases res with ⟨st, oe⟩
  have hz : st.trace.countP isErrorEv = 0 :=
    List.countP_eq_zero.mpr (fun ev hev => by simp [(h ev hev).1])
  cases oe with
  | some e =>
    refine ⟨List.Pairwise.nil, ?_, ?_, fun _ _ => rfl⟩
    · intro rs hrs
      rcases List.mem_append.mp hrs with hrs | hrs
      · exact absurd (h _ hrs).2 (by simp [isCompleteEv])
      · simp at hrs
    · show (st.trace ++ [Ev.errorEv e]).countP isErrorEv ≤ 1
      rw [List.countP_append, hz]
      simp [List.countP_cons, isErrorEv]
  | none =>
    simp only [incAfterLoop]
    refine ⟨distinctKeys_sort_dedupe _, ?_, ?_, ?_⟩
    · intro rs hrs
      rcases List.mem_append.mp hrs with hrs | hrs
      · rcases List.mem_append.mp hrs with hrs | hrs
        · rcases List.mem_append.mp hrs with hrs | hrs
          · exact absurd (h _ hrs).2 (by simp [isCompleteEv])
          · revert hrs; split_ifs <;> simp
        · revert hrs; split_ifs <;> simp
      · rcases List.mem_cons.mp hrs with hrs | hrs
        · simp at hrs
        · have h2 := List.mem_singleton.mp hrs
          obtain rfl : rs = sortTsDesc (deduplicateRecords st.allRecords) := by
            injection h2
          exact distinctKeys_sort_dedupe _
    · rw [List.countP_append, List.countP_append, List.countP_append, hz]
      have e1 : (if !t30 && decide
          ((sortTsDesc (deduplicateRecords st.allRecords)).length > 0) then
            [Ev.milestone "30d"] else []).countP isErrorEv = 0 := by
        split_ifs <;> rfl
      have e2 : (if !st.t7 then
            [Ev.milestone "7d",
              Ev.recordsEv (sortTsDesc (deduplicateRecords st.allRecords))
                (getDaysCovered (sortTsDesc (deduplicateRecords st.allRecords))
                  (nowMs / 1000))] else []).countP isErrorEv = 0 := by
        split_ifs <;> rfl
      rw [e1, e2]
      simp [List.countP_cons, isErrorEv]
    · intro e he
      exfalso
      rcases List.mem_append.mp he with he | he
      · rcases List.mem_append.mp he with he | he
        · rcases List.mem_append.mp he with he | he
          · exact absurd (h _ he).1 (by simp [isErrorEv])
          · revert he; split_ifs <;> simp
        · revert he; split_ifs <;> simp
      · rcases List.mem_cons.mp he with he | he
        · simp at he
        · simp at he

theorem extAfterLoop_outcome (days nowMs totalMonths : Nat)
    (res : List Ev × List DriftFundingPaymentRecord × Store × Option String)
    (h : ∀ ev ∈ res.1, isErrorEv ev = false ∧ isCompleteEv ev = false) :
    distinctKeys (extAfterLoop days nowMs totalMonths res).records ∧
    (∀ rs, Ev.completeEv rs ∈ (extAfterLoop days nowMs totalMonths res).trace →
      distinctKeys rs) ∧
    (extAfterLoop days nowMs totalMonths res).trace.countP isErrorEv ≤ 1 ∧
    (∀ e, Ev.errorEv e ∈ (extAfterLoop days nowMs totalMonths res).trace →
      (extAfterLoop days nowMs totalMonths res).records = []) := by
  rcases res with ⟨tr, all, st, oe⟩
  have hz : tr.countP isErrorEv = 0 :=
    List.countP_eq_zero.mpr (fun ev hev => by simp [(h ev hev).1])
  cases oe with
  | some e =>
    refine ⟨List.Pairwise.nil, ?_, ?_, fun _ _ => rfl⟩
    · intro rs hrs
      rcases List.mem_append.mp hrs with hrs | hrs
      · exact absurd (h _ hrs).2 (by simp [isCompleteEv])
      · simp at hrs
    · show (tr ++ [Ev.errorEv e]).countP isErrorEv ≤ 1
      rw [List.countP_append, hz]
      simp [List.countP_cons, isErrorEv]
  | none =>
    simp only [extAfterLoop]
    refine ⟨distinctKeys_sort_dedupe _, ?_, ?_, ?_⟩
    · intro rs hrs
      rcases List.mem_append.mp hrs with hrs | hrs
      · exact absurd (h _ hrs).2 (by simp [isCompleteEv])
      · rcases List.mem_cons.mp hrs with hrs | hrs
        · simp at hrs
        · have h2 := List.mem_singleton.mp hrs
          obtain rfl : rs = sortTsDesc (deduplicateRecords
              (all.filter (fun r => nowMs / 1000 - days * 24 * 60 * 60 ≤ r.ts))) := by
            injection h2
          exact distinctKeys_sort_dedupe _
    · rw [List.countP_append, hz]
      simp [List.countP_cons, isErrorEv]
    · intro e he
      exfalso
      rcases List.mem_append.mp he with he | he
      · exact absurd (h _ he).1 (by simp [isErrorEv])
      · rcases List.mem_cons.mp he with he | he
        · simp at he
        · simp at he

theorem probeAfterLoop_outcome
    (res : List Ev × List DriftFundingPaymentRecord × Store × Option String)
    (h : ∀ ev ∈ res.1, isErrorEv ev = false ∧ isCompleteEv ev = false) :
    distinctKeys (probeAfterLoop res).records ∧
    (∀ rs, Ev.completeEv rs ∈ (probeAfterLoop res).trace → distinctKeys rs) ∧
    (probeAfterLoop res).trace.countP isErrorEv ≤ 1 ∧
    (∀ e, Ev.errorEv e ∈ (probeAfterLoop res).trace →
      (probeAfterLoop res).records = []) := by
  rcases res with ⟨tr, all, st, oe⟩
  have hz : tr.countP isErrorEv = 0 :=
    List.countP_eq_zero.mpr (fun ev hev => by simp [(h ev hev).1])
  cases oe with
  | some e =>
    refine ⟨List.Pairwise.nil, ?_, ?_, fun _ _ => rfl⟩
    · intro rs hrs
      rcases List.mem_append.mp hrs with hrs | hrs
      · exact absurd (h _ hrs).2 (by simp [isCompleteEv])
      · simp at hrs
    · show (tr ++ [Ev.errorEv e]).countP isErrorEv ≤ 1
      rw [List.countP_append, hz]
      simp [List.countP_cons, isErrorEv]
  | none =>
    simp only [probeAfterLoop]
    refine ⟨distinctKeys_sort_dedupe _, ?_, ?_, ?_⟩
    · intro rs hrs
      rcases List.mem_append.mp hrs with hrs | hrs
      · exact absurd (h _ hrs).2 (by simp [isCompleteEv])
      · have h2 := List.mem_singleton.mp hrs
        obtain rfl : rs = sortTsDesc (deduplicateRecords all) := by
          injection h2
        exact distinctKeys_sort_dedupe _
    · rw [List.countP_append, hz]
      simp [List.countP_cons, isErrorEv]
    · intro e he
      exfalso
      rcases List.mem_append.mp he with he | he
      · exact absurd (h _ he).1 (by simp [isErrorEv])
      · simp at he

theorem fetchIncremental_outcome (wallet : String) (pages : List ApiResult)
    (aborted : Bool) (nowMs : Nat) (store : Store) :
    distinctKeys (fetchFundingIncremental wallet pages aborted nowMs store).records ∧
    (∀ rs, Ev.completeEv rs ∈
        (fetchFundingIncremental wallet pages aborted nowMs store).trace →
      distinctKeys rs) ∧
    (fetchFundingIncremental wallet pages aborted nowMs store).trace.countP
      isErrorEv ≤ 1 ∧
    (∀ e, Ev.errorEv e ∈
        (fetchFundingIncremental wallet pages aborted nowMs store).trace →
      (fetchFundingIncremental wallet pages aborted nowMs store).records = []) := by
  unfold fetchFundingIncremental
  dsimp only
  by_cases hc : (getMissingDateRange wallet 30 nowMs store).needsFetch =
      NeedsFetch.nothing
  · rw [if_pos hc]
    refine ⟨distinctKeys_getCachedRecords _ _ _ _, ?_, ?_, ?_⟩
    · intro rs hrs
      split_ifs at hrs <;> simp at hrs <;>
        (rw [hrs]; exact distinctKeys_getCachedRecords _ _ _ _)
    · split_ifs <;> simp [List.countP_append, List.countP_cons, isErrorEv]
    · intro e he
      exfalso
      split_ifs at he <;> simp at he
  · rw [if_neg hc]
    exact incAfterLoop_outcome wallet nowMs store _ _
      (runPages_trace_events aborted (nowMs / 1000)
        (nowMs / 1000 - 30 * 24 * 60 * 60) pages _ (incPreTrace_events _ _))

theorem fetchExtended_outcome (wallet : String) (timeframe : Timeframe)
    (monthApi : Nat → Nat → ApiResult) (aborted : Bool) (nowMs : Nat)
    (store : Store) :
    distinctKeys (fetchExtendedTimeframe wallet timeframe monthApi aborted
      nowMs store).records ∧
    (∀ rs, Ev.completeEv rs ∈ (fetchExtendedTimeframe wallet timeframe
        monthApi aborted nowMs store).trace →
      distinctKeys rs) ∧
    (fetchExtendedTimeframe wallet timeframe monthApi aborted nowMs
      store).trace.countP isErrorEv ≤ 1 ∧
    (∀ e, Ev.errorEv e ∈ (fetchExtendedTimeframe wallet timeframe monthApi
        aborted nowMs store).trace →
      (fetchExtendedTimeframe wallet timeframe monthApi aborted nowMs
        store).records = []) := by
  unfold fetchExtendedTimeframe
  dsimp only
  by_cases hab : aborted = true ∧
      (getMonthsInRange (nowMs - getTimeframeDays timeframe * 86400000)
        nowMs).reverse ≠ []
  · rw [if_pos hab]
    refine ⟨List.Pairwise.nil, ?_, ?_, fun _ _ => rfl⟩
    · intro rs hrs
      simp at hrs
    · simp [List.countP_append, List.countP_cons, isErrorEv]
  · rw [if_neg hab]
    apply extAfterLoop_outcome
    split_ifs
    all_goals
      first
        | apply extLoop_trace_events
        | skip
    all_goals
      intro ev hev
      simp only [List.mem_append, List.mem_singleton, List.mem_cons,
        List.not_mem_nil, or_false, false_or, List.append_nil,
        List.nil_append] at hev
      first
        | (rcases hev with rfl | rfl | rfl <;> exact ⟨rfl, rfl⟩)
        | (rcases hev with (rfl | rfl) | rfl <;> exact ⟨rfl, rfl⟩)

theorem fetchProbe_outcome (wallet : String)
    (monthApi : Nat → Nat → ApiResult) (aborted : Bool) (nowMs : Nat)
    (store : Store) :
    distinctKeys (fetchProbe12Months wallet monthApi aborted nowMs
      store).records ∧
    (∀ rs, Ev.completeEv rs ∈ (fetchProbe12Months wallet monthApi aborted
        nowMs store).trace →
      distinctKeys rs) ∧
    (fetchProbe12Months wallet monthApi aborted nowMs store).trace.countP
      isErrorEv ≤ 1 ∧
    (∀ e, Ev.errorEv e ∈ (fetchProbe12Months wallet monthApi aborted nowMs
        store).trace →
      (fetchProbe12Months wallet monthApi aborted nowMs store).records
        = []) := by
  unfold fetchProbe12Months
  exact probeAfterLoop_outcome _
    (probeLoop_trace_events _ _ _ _ _ _ _ _ _ _
      (fun ev hev => absurd hev (List.not_mem_nil ev)))

/-- C5. For every wallet, environment and store, and for each of the
three fetch variants, the final record list returned to the caller and
every record list handed to `onComplete` contain no two records sharing
the identity key `(txSig, txSigIndex)`. -/
theorem fetch_variants_no_duplicate_identities :
    (∀ (wallet : String) (pages : List ApiResult) (aborted : Bool)
        (nowMs : Nat) (store : Store),
      (fetchFundingIncremental wallet pages aborted nowMs
        store).records.Pairwise (fun a b =>
          ¬(a.txSig = b.txSig ∧ a.txSigIndex = b.txSigIndex)) ∧
      (∀ rs, Ev.completeEv rs ∈
          (fetchFundingIncremental wallet pages aborted nowMs store).trace →
        rs.Pairwise (fun a b =>
          ¬(a.txSig = b.txSig ∧ a.txSigIndex = b.txSigIndex)))) ∧
    (∀ (wallet : String) (timeframe : Timeframe)
        (monthApi : Nat → Nat → ApiResult) (aborted : Bool) (nowMs : Nat)
        (store : Store),
      (fetchExtendedTimeframe wallet timeframe monthApi aborted nowMs
        store).records.Pairwise (fun a b =>
          ¬(a.txSig = b.txSig ∧ a.txSigIndex = b.txSigIndex)) ∧
      (∀ rs, Ev.completeEv rs ∈
          (fetchExtendedTimeframe wallet timeframe monthApi aborted nowMs
            store).trace →
        rs.Pairwise (fun a b =>
          ¬(a.txSig = b.txSig ∧ a.txSigIndex = b.txSigIndex)))) ∧
    (∀ (wallet : String) (monthApi : Nat → Nat → ApiResult) (aborted : Bool)
        (nowMs : Nat) (store : Store),
      (fetchProbe12Months wallet monthApi aborted nowMs
        store).records.Pairwise (fun a b =>
          ¬(a.txSig = b.txSig ∧ a.txSigIndex = b.txSigIndex)) ∧
      (∀ rs, Ev.completeEv rs ∈
          (fetchProbe12Months wallet monthApi aborted nowMs store).trace →
        rs.Pairwise (fun a b =>
          ¬(a.txSig = b.txSig ∧ a.txSigIndex = b.txSigIndex)))) := by
  refine ⟨?_, ?_, ?_⟩
  · intro wallet pages aborted nowMs store
    obtain ⟨h1, h2, _, _⟩ := fetchIncremental_outcome wallet pages aborted
      nowMs store
    exact ⟨distinctKeys_ident _ h1,
      fun rs hrs => distinctKeys_ident _ (h2 rs hrs)⟩
  · intro wallet timeframe monthApi aborted nowMs store
    obtain ⟨h1, h2, _, _⟩ := fetchExtended_outcome wallet timeframe monthApi
      aborted nowMs store
    exact ⟨distinctKeys_ident _ h1,
      fun rs hrs => distinctKeys_ident _ (h2 rs hrs)⟩
  · intro wallet monthApi aborted nowMs store
    obtain ⟨h1, h2, _, _⟩ := fetchProbe_outcome wallet monthApi aborted
      nowMs store
    exact ⟨distinctKeys_ident _ h1,
      fun rs hrs => distinctKeys_ident _ (h2 rs hrs)⟩

/-- Witness for C5: the list handed to `onComplete` in a concrete
cache-hit run has pairwise-distinct identity pairs. -/
theorem fetch_variants_no_duplicate_identities_witness :
    (getCachedRecords "walletA" 30 sampleNowMs
        ⟨[(("walletA", 2025, 10),
            ⟨[sampleRecord 1760133600 "sigA" 0,
              sampleRecord 1760130000 "sigB" 1], sampleNowMs, false⟩)],
          [("walletA", ⟨"2025-10-11", "2000-01-01", sampleNowMs⟩)]⟩).Pairwise
      (fun a b => ¬(a.txSig = b.txSig ∧ a.txSigIndex = b.txSigIndex)) :=
  (fetch_variants_no_duplicate_identities.1 "walletA" [] false sampleNowMs
    ⟨[(("walletA", 2025, 10),
        ⟨[sampleRecord 1760133600 "sigA" 0,
          sampleRecord 1760130000 "sigB" 1], sampleNowMs, false⟩)],
      [("walletA", ⟨"2025-10-11", "2000-01-01", sampleNowMs⟩)]⟩).2 _
    (by decide)

/-- C10 (amended). No fetch variant rejects: every run produces an
outcome in which `onError` is invoked at most once, and whenever it is
invoked the variant resolves with the empty record list.  (An error
inside an individual month request of the extended fetch is swallowed
without reaching `onError` — see the counterexample.) -/
theorem fetch_variants_error_policy :
    (∀ (wallet : String) (pages : List ApiResult) (aborted : Bool)
        (nowMs : Nat) (store : Store),
      (fetchFundingIncremental wallet pages aborted nowMs
        store).trace.countP isErrorEv ≤ 1 ∧
      (∀ e, Ev.errorEv e ∈
          (fetchFundingIncremental wallet pages aborted nowMs store).trace →
        (fetchFundingIncremental wallet pages aborted nowMs store).records
          = [])) ∧
    (∀ (wallet : String) (timeframe : Timeframe)
        (monthApi : Nat → Nat → ApiResult) (aborted : Bool) (nowMs : Nat)
        (store : Store),
      (fetchExtendedTimeframe wallet timeframe monthApi aborted nowMs
        store).trace.countP isErrorEv ≤ 1 ∧
      (∀ e, Ev.errorEv e ∈
          (fetchExtendedTimeframe wallet timeframe monthApi aborted nowMs
            store).trace →
        (fetchExtendedTimeframe wallet timeframe monthApi aborted nowMs
          store).records = [])) ∧
    (∀ (wallet : String) (monthApi : Nat → Nat → ApiResult) (aborted : Bool)
        (nowMs : Nat) (store : Store),
      (fetchProbe12Months wallet monthApi aborted nowMs
        store).trace.countP isErrorEv ≤ 1 ∧
      (∀ e, Ev.errorEv e ∈
          (fetchProbe12Months wallet monthApi aborted nowMs store).trace →
        (fetchProbe12Months wallet monthApi aborted nowMs store).records
          = [])) := by
  refine ⟨?_, ?_, ?_⟩
  · intro wallet pages aborted nowMs store
    obtain ⟨_, _, h3, h4⟩ := fetchIncremental_outcome wallet pages aborted
      nowMs store
    exact ⟨h3, h4⟩
  · intro wallet timeframe monthApi aborted nowMs store
    obtain ⟨_, _, h3, h4⟩ := fetchExtended_outcome wallet timeframe monthApi
      aborted nowMs store
    exact ⟨h3, h4⟩
  · intro wallet monthApi aborted nowMs store
    obtain ⟨_, _, h3, h4⟩ := fetchProbe_outcome wallet monthApi aborted
      nowMs store
    exact ⟨h3, h4⟩

/-- Witness for the amended C10: a probe whose every month request
throws reports the error once and resolves with `[]`. -/
theorem fetch_variants_error_policy_witness :
    (fetchProbe12Months "walletA" (fun _ _ => ApiResult.err "down") false
      sampleNowMs ⟨[], []⟩).trace.countP isErrorEv ≤ 1 ∧
    (fetchProbe12Months "walletA" (fun _ _ => ApiResult.err "down") false
      sampleNowMs ⟨[], []⟩).records = [] :=
  ⟨(fetch_variants_error_policy.2.2 "walletA"
      (fun _ _ => ApiResult.err "down") false sampleNowMs ⟨[], []⟩).1,
    (fetch_variants_error_policy.2.2 "walletA"
      (fun _ _ => ApiResult.err "down") false sampleNowMs ⟨[], []⟩).2 "down"
      (by decide)⟩

/-- Counterexample to C10 as stated: in the extended fetch a failing
month request is an error raised internally (the month is requested and
its call throws), yet `onError` is never invoked and the fetch resolves
with the other months' records rather than an empty list. -/
theorem extended_swallows_month_error :
    sampleExtApi 2025 9 = ApiResult.err "boom" ∧
    Ev.netCallMonth 2025 9 ∈
      (fetchExtendedTimeframe "walletA" Timeframe.m3 sampleExtApi false
        sampleNowMs ⟨[], []⟩).trace ∧
    (fetchExtendedTimeframe "walletA" Timeframe.m3 sampleExtApi false
      sampleNowMs ⟨[], []⟩).trace.countP isErrorEv = 0 ∧
    (fetchExtendedTimeframe "walletA" Timeframe.m3 sampleExtApi false
      sampleNowMs ⟨[], []⟩).records ≠ [] := by
  refine ⟨rfl, ?_, ?_, ?_⟩ <;> decide

theorem chunks3_join {α : Type} : ∀ l : List α, (chunks3 l).flatten = l := by
  intro l
  induction l using chunks3.induct with
  | case1 => rfl
  | case2 a => rfl
  | case3 a b => rfl
  | case4 a b c rest ih => simp [chunks3, ih]

theorem assocGet_set_ne {α β : Type} [DecidableEq α] (k k' : α) (v : β)
    (hne : k ≠ k') :
    ∀ l : List (α × β), assocGet k (assocSet k' v l) = assocGet k l := by
  intro l
  induction l with
  | nil =>
    simp only [assocSet, assocGet, List.find?_cons, List.find?_nil]
    rw [show (decide ((k', v).1 = k)) = false by simpa using fun h => hne h.symm]
  | cons p ps ih =>
    simp only [assocSet]
    split_ifs with hp
    · simp only [assocGet, List.find?_cons]
      rw [show (decide ((k', v).1 = k)) = false by
          simpa using fun h => hne h.symm,
        show (decide (p.1 = k)) = false by
          simp only [decide_eq_false_iff_not]
          rw [hp]
          exact fun h => hne h.symm]
    · simp only [assocGet, List.find?_cons] at ih ⊢
      cases hd : decide (p.1 = k) with
      | true => rfl
      | false => exact ih

theorem getMonthsInRange_nodup (startMs endMs : Nat) :
    (getMonthsInRange startMs endMs).Nodup := by
  unfold getMonthsInRange
  dsimp only
  split_ifs with hab
  · refine (List.nodup_range _).map ?_
    intro i j hij
    simp only [Prod.mk.injEq] at hij
    omega
  · exact List.nodup_nil

theorem probeMonths_nodup (nowMs : Nat) : (probeMonths nowMs).Nodup :=
  (List.take_sublist _ _).nodup
    (List.nodup_reverse.mpr (getMonthsInRange_nodup _ _))

theorem probeAfterLoop_store
    (res : List Ev × List DriftFundingPaymentRecord × Store × Option String) :
    (probeAfterLoop res).store = res.2.2.1 := by
  rcases res with ⟨tr, all, st, oe⟩
  cases oe <;> rfl

theorem monthKey_ne (w : String) {a b : Nat × Nat} (h : a ≠ b) :
    (walletKey w, a.1, a.2) ≠ (walletKey w, b.1, b.2) := by
  intro he
  apply h
  simp only [Prod.mk.injEq] at he
  exact Prod.ext he.2.1 he.2.2

theorem probeBatch_frame (wallet : String)
    (monthApi : Nat → Nat → ApiResult) (nowMs : Nat) :
    ∀ (batch : List (Nat × Nat)) (st : Store) (ym : Nat × Nat),
      ym ∉ batch →
      getCachedFundingMonth wallet ym.1 ym.2
          (probeBatch wallet monthApi nowMs batch st).2.1
        = getCachedFundingMonth wallet ym.1 ym.2 st := by
  intro batch
  induction batch with
  | nil => intro st ym _; rfl
  | cons b bs ih =>
    intro st ym hnm
    have hne : ym ≠ b := fun he => hnm (he ▸ List.mem_cons_self _ _)
    have hnm' : ym ∉ bs := fun hm => hnm (List.mem_cons_of_mem _ hm)
    simp only [probeBatch, probeFetchMonth]
    cases hapi : monthApi b.1 b.2 with
    | err e => rfl
    | ok resp =>
      obtain ⟨succ, recs, np⟩ := resp
      cases succ with
      | false =>
        dsimp only
        rcases hrec2 : probeBatch wallet monthApi nowMs bs st with
          ⟨rs2, st2, oe2⟩
        have h2 := ih st ym hnm'
        rw [hrec2] at h2
        exact h2
      | true =>
        cases recs with
        | none =>
          dsimp only
          rcases hrec2 : probeBatch wallet monthApi nowMs bs st with
            ⟨rs2, st2, oe2⟩
          have h2 := ih st ym hnm'
          rw [hrec2] at h2
          exact h2
        | some rs0 =>
          dsimp only
          split_ifs with hlen
          · have h2 := ih (setCachedFundingMonth wallet b.1 b.2 rs0 nowMs st)
              ym hnm'
            exact h2.trans (assocGet_set_ne _ _ _ (monthKey_ne wallet hne) _)
          · have h2 := ih (setCachedFundingMonth wallet b.1 b.2 [] nowMs st)
              ym hnm'
            exact h2.trans (assocGet_set_ne _ _ _ (monthKey_ne wallet hne) _)

theorem probeBatch_ok (wallet : String)
    (monthApi : Nat → Nat → ApiResult) (nowMs : Nat) :
    ∀ (batch : List (Nat × Nat)) (st : Store),
      (∀ ym ∈ batch, (respRecordsOf (monthApi ym.1 ym.2)).isSome) →
      (probeBatch wallet monthApi nowMs batch st).2.2 = none := by
  intro batch
  induction batch with
  | nil => intro st _; rfl
  | cons b bs ih =>
    intro st hsucc
    have hb := hsucc b (List.mem_cons_self _ _)
    have hbs : ∀ ym ∈ bs, (respRecordsOf (monthApi ym.1 ym.2)).isSome :=
      fun ym hym => hsucc ym (List.mem_cons_of_mem _ hym)
    simp only [probeBatch, probeFetchMonth]
    cases hapi : monthApi b.1 b.2 with
    | err e =>
      rw [hapi] at hb
      simp [respRecordsOf] at hb
    | ok resp =>
      obtain ⟨succ, recs, np⟩ := resp
      cases succ with
      | false =>
        rw [hapi] at hb
        simp [respRecordsOf] at hb
      | true =>
        cases recs with
        | none =>
          rw [hapi] at hb
          simp [respRecordsOf] at hb
        | some rs0 =>
          dsimp only
          split_ifs with hlen
          · exact ih (setCachedFundingMonth wallet b.1 b.2 rs0 nowMs st) hbs
          · exact ih (setCachedFundingMonth wallet b.1 b.2 [] nowMs st) hbs

theorem probeBatch_write (wallet : String)
    (monthApi : Nat → Nat → ApiResult) (nowMs : Nat) :
    ∀ (batch : List (Nat × Nat)) (st : Store) (ym : Nat × Nat),
      batch.Nodup → ym ∈ batch →
      (∀ ym' ∈ batch, (respRecordsOf (monthApi ym'.1 ym'.2)).isSome) →
      ∃ c, getCachedFundingMonth wallet ym.1 ym.2
          (probeBatch wallet monthApi nowMs batch st).2.1 = some c ∧
        some c.records = respRecordsOf (monthApi ym.1 ym.2) ∧
        c.fetchedAt = nowMs ∧
        c.isComplete = !isCurrentMonth ym.1 ym.2 nowMs := by
  intro batch
  induction batch with
  | nil => intro st ym _ hmem _; exact absurd hmem (List.not_mem_nil ym)
  | cons b bs ih =>
    intro st ym hnd hmem hsucc
    have hb := hsucc b (List.mem_cons_self _ _)
    have hbs : ∀ ym' ∈ bs, (respRecordsOf (monthApi ym'.1 ym'.2)).isSome :=
      fun ym' hym => hsucc ym' (List.mem_cons_of_mem _ hym)
    simp only [probeBatch, probeFetchMonth]
    cases hapi : monthApi b.1 b.2 with
    | err e =>
      rw [hapi] at hb
      simp [respRecordsOf] at hb
    | ok resp =>
      obtain ⟨succ, recs, np⟩ := resp
      cases succ with
      | false =>
        rw [hapi] at hb
        simp [respRecordsOf] at hb
      | true =>
        cases recs with
        | none =>
          rw [hapi] at hb
          simp [respRecordsOf] at hb
        | some rs0 =>
          dsimp only
          have hresp : respRecordsOf (monthApi b.1 b.2) = some rs0 := by
            rw [hapi]
            rfl
          split_ifs with hlen
          · rcases List.mem_cons.mp hmem with rfl | hym
            · have hfr := probeBatch_frame wallet monthApi nowMs bs
                (setCachedFundingMonth wallet ym.1 ym.2 rs0 nowMs st) ym
                (List.nodup_cons.mp hnd).1
              refine ⟨⟨rs0, nowMs, !isCurrentMonth ym.1 ym.2 nowMs⟩,
                ?_, by rw [hresp], rfl, rfl⟩
              rw [hfr]
              exact assocGet_set_self _ _ _
            · exact ih (setCachedFundingMonth wallet b.1 b.2 rs0 nowMs st) ym
                (List.nodup_cons.mp hnd).2 hym hbs
          · have hrs0 : rs0 = [] := List.length_eq_zero.mp (by omega)
            rcases List.mem_cons.mp hmem with rfl | hym
            · have hfr := probeBatch_frame wallet monthApi nowMs bs
                (setCachedFundingMonth wallet ym.1 ym.2 [] nowMs st) ym
                (List.nodup_cons.mp hnd).1
              refine ⟨⟨[], nowMs, !isCurrentMonth ym.1 ym.2 nowMs⟩,
                ?_, by rw [hresp, hrs0], rfl, rfl⟩
              rw [hfr]
              exact assocGet_set_self _ _ _
            · exact ih (setCachedFundingMonth wallet b.1 b.2 [] nowMs st) ym
                (List.nodup_cons.mp hnd).2 hym hbs

theorem probeLoop_frame (wallet : String)
    (monthApi : Nat → Nat → ApiResult) (aborted : Bool)
    (nowMs totalMonths : Nat) :
    ∀ (chunks : List (List (Nat × Nat))) (i : Nat)
      (all : List DriftFundingPaymentRecord) (st : Store) (tr : List Ev)
      (ym : Nat × Nat),
      (∀ chunk ∈ chunks, ym ∉ chunk) →
      getCachedFundingMonth wallet ym.1 ym.2
          (probeLoop wallet monthApi aborted nowMs totalMonths chunks i all
            st tr).2.2.1
        = getCachedFundingMonth wallet ym.1 ym.2 st := by
  intro chunks
  induction chunks with
  | nil => intro i all st tr ym _; rfl
  | cons batch rest ih =>
    intro i all st tr ym hnm
    rw [probeLoop]
    have hfr := probeBatch_frame wallet monthApi nowMs batch st ym
      (hnm batch (List.mem_cons_self _ _))
    split_ifs with hab
    · rfl
    · rcases hb : probeBatch wallet monthApi nowMs batch st with ⟨rs, st1, oe⟩
      rw [hb] at hfr
      cases oe with
      | some e => exact hfr
      | none =>
        rw [ih _ _ _ _ ym (fun c hc => hnm c (List.mem_cons_of_mem _ hc))]
        exact hfr

theorem probeLoop_write (wallet : String)
    (monthApi : Nat → Nat → ApiResult) (nowMs totalMonths : Nat) :
    ∀ (chunks : List (List (Nat × Nat))) (i : Nat)
      (all : List DriftFundingPaymentRecord) (st : Store) (tr : List Ev),
      chunks.flatten.Nodup →
      (∀ ym ∈ chunks.flatten, (respRecordsOf (monthApi ym.1 ym.2)).isSome) →
      ∀ ym ∈ chunks.flatten,
      ∃ c, getCachedFundingMonth wallet ym.1 ym.2
          (probeLoop wallet monthApi false nowMs totalMonths chunks i all
            st tr).2.2.1 = some c ∧
        some c.records = respRecordsOf (monthApi ym.1 ym.2) ∧
        c.fetchedAt = nowMs ∧
        c.isComplete = !isCurrentMonth ym.1 ym.2 nowMs := by
  intro chunks
  induction chunks with
  | nil =>
    intro i all st tr _ _ ym hym
    simp at hym
  | cons batch rest ih =>
    intro i all st tr hnd hsucc ym hym
    rw [List.flatten_cons] at hnd hsucc hym
    have hndb := hnd.of_append_left
    have hndr := (List.nodup_append.mp hnd).2.1
    have hdisj := (List.nodup_append.mp hnd).2.2
    have hsb : ∀ ym' ∈ batch, (respRecordsOf (monthApi ym'.1 ym'.2)).isSome :=
      fun ym' h => hsucc ym' (List.mem_append_left _ h)
    have hsr : ∀ ym' ∈ rest.flatten,
        (respRecordsOf (monthApi ym'.1 ym'.2)).isSome :=
      fun ym' h => hsucc ym' (List.mem_append_right _ h)
    rw [probeLoop]
    rw [if_neg (by simp)]
    rcases hb : probeBatch wallet monthApi nowMs batch st with ⟨rs, st1, oe⟩
    have hoe : oe = none := by
      have := probeBatch_ok wallet monthApi nowMs batch st hsb
      rw [hb] at this
      exact this
    subst hoe
    rcases List.mem_append.mp hym with hym | hym
    · have hfr := probeLoop_frame wallet monthApi false nowMs totalMonths
        rest (i + batch.length) (all ++ rs) st1
        (tr ++ batch.map (fun ym => Ev.netCallMonth ym.1 ym.2)
          ++ [Ev.probeProgress (min (i + batch.length) totalMonths)
            totalMonths]) ym
        (fun c hc hin => hdisj hym (List.mem_flatten.mpr ⟨c, hc, hin⟩))
      rw [hfr]
      have hw := probeBatch_write wallet monthApi nowMs batch st ym hndb
        hym hsb
      rw [hb] at hw
      exact hw
    · exact ih _ _ _ _ hndr hsr ym hym

/-- C9 (amended). With no abort, the twelve-month probe caches every
month it visits whose request returns a successful response: the bucket
holds exactly the response's records — a month with zero records is
cached as confirmed-empty (`records = []`) — stamped with the fetch
time.  However the probe itself never consults the cache before its
network calls, so a subsequent probe repeats all its month requests
(see the counterexample). -/
theorem probe_caches_every_successful_month (wallet : String)
    (monthApi : Nat → Nat → ApiResult) (nowMs : Nat) (store : Store)
    (hsucc : ∀ ym ∈ probeMonths nowMs,
      (respRecordsOf (monthApi ym.1 ym.2)).isSome) :
    ∀ ym ∈ probeMonths nowMs,
      ∃ c, getCachedFundingMonth wallet ym.1 ym.2
          (fetchProbe12Months wallet monthApi false nowMs store).store
        = some c ∧
        some c.records = respRecordsOf (monthApi ym.1 ym.2) ∧
        c.fetchedAt = nowMs ∧
        c.isComplete = !isCurrentMonth ym.1 ym.2 nowMs := by
  intro ym hym
  have hst : (fetchProbe12Months wallet monthApi false nowMs store).store
      = (probeLoop wallet monthApi false nowMs
          (min 12 (getMonthsInRange (nowMs - 365 * 86400000)
            nowMs).reverse.length)
          (chunks3 (probeMonths nowMs)) 0 [] store []).2.2.1 :=
    probeAfterLoop_store _
  rw [hst]
  exact probeLoop_write wallet monthApi nowMs _ (chunks3 (probeMonths nowMs))
    0 [] store []
    (by rw [chunks3_join]; exact probeMonths_nodup nowMs)
    (by rw [chunks3_join]; exact hsucc)
    ym (by rw [chunks3_join]; exact hym)

/-- Witness for the amended C9: after a probe over the all-empty
environment, October 2025 is cached as confirmed-empty. -/
theorem probe_caches_every_successful_month_witness :
    ∃ c, getCachedFundingMonth "walletA" 2025 10
        (fetchProbe12Months "walletA" sampleEmptyApi false sampleNowMs
          ⟨[], []⟩).store = some c ∧
      some c.records = respRecordsOf (sampleEmptyApi 2025 10) ∧
      c.fetchedAt = sampleNowMs ∧
      c.isComplete = !isCurrentMonth 2025 10 sampleNowMs :=
  probe_caches_every_successful_month "walletA" sampleEmptyApi sampleNowMs
    ⟨[], []⟩ (by decide) (2025, 10) (by decide)

/-- Counterexample to C9 as stated: after a first probe has cached all
twelve visited months, a second probe for the same wallet still issues
twelve monthly network requests — the probe never checks the cache, so
caching does not prevent it from repeating the same calls. -/
theorem probe_repeats_calls_for_cached_months :
    (probeMonths sampleNowMs).length = 12 ∧
    (∀ ym ∈ probeMonths sampleNowMs,
      (getCachedFundingMonth "walletA" ym.1 ym.2
        (fetchProbe12Months "walletA" sampleEmptyApi false sampleNowMs
          ⟨[], []⟩).store).isSome) ∧
    (fetchProbe12Months "walletA" sampleEmptyApi false sampleNowMs
        (fetchProbe12Months "walletA" sampleEmptyApi false sampleNowMs
          ⟨[], []⟩).store).trace.countP isNetCallMonth = 12 := by
  refine ⟨?_, ?_, ?_⟩ <;> decide

end PerpLens

